import Mathlib

set_option maxRecDepth 100000

/-
  Verification development for the sega-nn-gno-exporter repository.

  The definitions below are a shallow embedding of the Python sources:
    * `src/strippifier.py`  (triangle stripification)
    * `src/nn_model.py`     (binary writer primitives, quantization)
    * `src/nn.py`           (container assembly: write_new_gno_file_2)
    * `src/__init__.py`     (write_model patch pass)

  Conventions used throughout:
    * Python object identity is modelled by integer ids: every Vertex,
      Edge and Triangle lives in one arena (the `Mesh` structure) and is
      referred to by its position in the corresponding list.  This is
      faithful because each Vertex/Edge/Triangle is created exactly once
      and Python comparisons on them (`is`, `in`, dict keys) are identity
      based.
    * Python exceptions are modelled by `Except PyErr`; each constructor
      names the Python exception class raised at the corresponding
      source line.
    * Python `while` loops are modelled with an explicit fuel parameter;
      exhausting fuel yields the distinguished error `.fuelError`, which
      corresponds to a Python run that has not yet terminated.
    * Machine integers are modelled as `Nat`/`Int`; byte emission uses
      explicit `% 256` arithmetic.
-/

namespace Gno

/-- Python exceptions that the embedded code can raise. -/
inductive PyErr where
  | topologyError   -- strippifier.TopologyError
  | attributeError  -- AttributeError (missing attribute / attribute of None)
  | keyError        -- KeyError (dict lookup miss)
  | typeError       -- TypeError (e.g. iterating None)
  | valueError      -- ValueError (e.g. max of empty sequence)
  | indexError      -- IndexError (list index out of range)
  | structError     -- struct.error (value out of range for a pack format)
  | fuelError       -- loop fuel exhausted (no Python counterpart: run unfinished)
deriving DecidableEq, Repr

/-- `divide_chunks(l, 3)` from the sources: split a list in runs of three
(the final run may be shorter). -/
def divideChunks3 {α : Type} : List α → List (List α)
  | [] => []
  | [a] => [[a]]
  | [a, b] => [[a, b]]
  | a :: b :: c :: rest => [a, b, c] :: divideChunks3 rest

/-- Python truthiness of an optional list argument (`if uv_list:`):
`None` and the empty list are falsy. -/
def pyTruthyList {α : Type} : Option (List α) → Bool
  | none => false
  | some l => !l.isEmpty

namespace Stripify

/-- `Vertex` from strippifier.py.  `index` is the vertex id, `normal_index`
is set to `index` in `Vertex.__init__` and never changed; `tris` is the
`triangles` list (triangle ids in append order).  The `edges` dict is not
stored here: since at most one `Edge` exists per unordered vertex pair and
the dict always holds both directions, `Vertex.isConnectedWith` is
equivalent to looking the pair up in the mesh-wide edge list (`findEdgeIdx`
below). -/
structure Vertex where
  index : Nat
  normal_index : Nat
  tris : List Nat
deriving DecidableEq, Repr, Inhabited

/-- `Edge` from strippifier.py: the two vertices (in creation order,
mirroring the `vertices` tuple) and the incident triangle ids in append
order. -/
structure Edge where
  v1 : Nat
  v2 : Nat
  tris : List Nat
deriving DecidableEq, Repr, Inhabited

/-- `Triangle` from strippifier.py.  `verts` is the winding-ordered vertex
id triple; `edges` and `neighbours` are ids in append order; `uvs` models
the `uv_indices` dict (present only when a truthy uv chunk was passed to
`Triangle.__init__`, otherwise the attribute is missing). -/
structure Triangle where
  index : Nat
  verts : List Nat
  edges : List Nat
  neighbours : List Nat
  used : Bool
  uvs : Option (List (Nat × Nat))
deriving DecidableEq, Repr, Inhabited

/-- `Mesh` from strippifier.py: the arena owning all vertices, edges and
triangles. -/
structure Mesh where
  vertices : List Vertex
  edges : List Edge
  triangles : List Triangle
deriving DecidableEq, Repr, Inhabited

def Mesh.tri (m : Mesh) (t : Nat) : Triangle := m.triangles.getD t default
def Mesh.vx (m : Mesh) (v : Nat) : Vertex := m.vertices.getD v default
def Mesh.edge (m : Mesh) (e : Nat) : Edge := m.edges.getD e default

def Mesh.setTri (m : Mesh) (t : Nat) (f : Triangle → Triangle) : Mesh :=
  { m with triangles := m.triangles.set t (f (m.tri t)) }
def Mesh.setVx (m : Mesh) (v : Nat) (f : Vertex → Vertex) : Mesh :=
  { m with vertices := m.vertices.set v (f (m.vx v)) }
def Mesh.setEdge (m : Mesh) (e : Nat) (f : Edge → Edge) : Mesh :=
  { m with edges := m.edges.set e (f (m.edge e)) }

/-- Python dict insertion (assignment overwrites an existing key, keeps
insertion order otherwise). -/
def dictInsert (d : List (Nat × Nat)) (k v : Nat) : List (Nat × Nat) :=
  if d.any (fun p => p.1 == k) then
    d.map (fun p => if p.1 == k then (k, v) else p)
  else d ++ [(k, v)]

/-- Python dict lookup. -/
def dictGet? (d : List (Nat × Nat)) (k : Nat) : Option Nat :=
  (d.find? (fun p => p.1 == k)).map (·.2)

/-- `triangle.uv_indices[k]`: AttributeError when the dict was never
assigned, KeyError when the key is missing. -/
def Triangle.uvGet (t : Triangle) (k : Nat) : Except PyErr Nat :=
  match t.uvs with
  | none => .error .attributeError
  | some d =>
    match dictGet? d k with
    | none => .error .keyError
    | some v => .ok v

/-- `Vertex.isConnectedWith`: find the unique edge joining two vertex ids
(see the comment on `Vertex`). -/
def findEdgeIdx (m : Mesh) (a b : Nat) : Option Nat :=
  m.edges.findIdx? (fun e => (e.v1 == a && e.v2 == b) || (e.v1 == b && e.v2 == a))

/-- `Edge.addTriangle`: cross-append neighbour links with every triangle
already on the edge, then record the triangle on the edge and the edge on
the triangle. -/
def edgeAddTriangle (m : Mesh) (eid tid : Nat) : Mesh :=
  let e := m.edge eid
  let m := e.tris.foldl (fun m t' =>
      let m := m.setTri t' (fun tr => { tr with neighbours := tr.neighbours ++ [tid] })
      m.setTri tid (fun tr => { tr with neighbours := tr.neighbours ++ [t'] })) m
  let m := m.setEdge eid (fun e => { e with tris := e.tris ++ [tid] })
  m.setTri tid (fun tr => { tr with edges := tr.edges ++ [eid] })

/-- `Triangle.addEdge`: reuse the edge joining `a` and `b` if it exists
(raising `TopologyError` when strict mode is on and the edge already has
more than one triangle), otherwise create it (`Vertex.connect` plus the
append to the mesh edge list). -/
def triAddEdge (raiseTopo : Bool) (m : Mesh) (tid a b : Nat) : Except PyErr Mesh :=
  match findEdgeIdx m a b with
  | none =>
    let eid := m.edges.length
    let m := { m with edges := m.edges ++ [⟨a, b, []⟩] }
    .ok (edgeAddTriangle m eid tid)
  | some eid =>
    if raiseTopo && decide ((m.edge eid).tris.length > 1) then .error .topologyError
    else .ok (edgeAddTriangle m eid tid)

def vxAppendTri (m : Mesh) (v tid : Nat) : Mesh :=
  m.setVx v (fun vx => { vx with tris := vx.tris ++ [tid] })

/-- The `for i in range(-1, 2)` loop of `Triangle.__init__`: append the
triangle to each vertex (order c, a, b) interleaved with the three
`addEdge` calls on the ordered pairs (c,a), (a,b), (b,c). -/
def triInit (raiseTopo : Bool) (m : Mesh) (tid a b c : Nat) : Except PyErr Mesh := do
  let m := vxAppendTri m c tid
  let m ← triAddEdge raiseTopo m tid c a
  let m := vxAppendTri m a tid
  let m ← triAddEdge raiseTopo m tid a b
  let m := vxAppendTri m b tid
  triAddEdge raiseTopo m tid b c

/-- The uv dict built at the top of `Triangle.__init__`:
`uvdict[verts[vi].index] = uv` for each enumerated uv of the chunk. -/
def mkUvDict (verts chunk : List Nat) : List (Nat × Nat) :=
  (verts.zip chunk).foldl (fun d p => dictInsert d p.1 p.2) []

/-- One step of the `Mesh.__init__` triangle list comprehension: push the
fresh `Triangle` record and run its constructor side effects. -/
def buildTris (raiseTopo : Bool) (triList : List Nat)
    (uvChunks : Option (List (List Nat))) : List Nat → Mesh → Except PyErr Mesh
  | [], m => .ok m
  | i :: rest, m => do
    let a := triList.getD (i * 3) 0
    let b := triList.getD (i * 3 + 1) 0
    let c := triList.getD (i * 3 + 2) 0
    let uvd ← match uvChunks with
      | none => pure none
      | some cs =>
        if i < cs.length then
          -- `uv_list[i]`; `if uv_indices:` a falsy (empty) chunk builds no dict
          let ch := cs.getD i []
          pure (if ch.isEmpty then none else some (mkUvDict [a, b, c] ch))
        else .error .indexError
    let m := { m with triangles := m.triangles ++ [⟨i, [a, b, c], [], [], false, uvd⟩] }
    let m ← triInit raiseTopo m i a b c
    buildTris raiseTopo triList uvChunks rest m

/-- `Mesh.__init__`: infer the vertex count as `max(triList)+1` (ValueError
on an empty list, as `max([])` raises), then construct the triangles in
order.  The trailing triple-edge count is only printed and has no semantic
effect. -/
def buildMesh (raiseTopo : Bool) (triList : List Nat) (uvList : Option (List Nat)) :
    Except PyErr Mesh := do
  let vertCount ← match triList.max? with
    | none => .error .valueError
    | some mx => pure (mx + 1)
  let m0 : Mesh := {
    vertices := (List.range vertCount).map (fun v => ⟨v, v, []⟩),
    edges := [], triangles := [] }
  let uvChunks : Option (List (List Nat)) :=
    if pyTruthyList uvList then some (divideChunks3 (uvList.getD [])) else none
  buildTris raiseTopo triList uvChunks (List.range (triList.length / 3)) m0

/-- `Vertex.availableTris`: count of incident triangles not yet in a strip. -/
def Mesh.availableTris (m : Mesh) (v : Nat) : Nat :=
  ((m.vx v).tris.filter (fun t => !(m.tri t).used)).length

/-- `Triangle.availableNeighbours`. -/
def Mesh.availableNeighbours (m : Mesh) (t : Nat) : List Nat :=
  (m.tri t).neighbours.filter (fun n => !(m.tri n).used)

/-- `Triangle.hasVertex`. -/
def Mesh.hasVertex (m : Mesh) (t v : Nat) : Bool :=
  (m.tri t).verts.contains v

/-- `Triangle.getThirdVertex`: `None` when `v1`/`v2` are not both in the
triangle or (degenerate triangle) no distinct third vertex exists. -/
def Mesh.getThirdVertex (m : Mesh) (t v1 v2 : Nat) : Option Nat :=
  let vs := (m.tri t).verts
  if vs.contains v1 && vs.contains v2 then
    vs.find? (fun v => v != v1 && v != v2)
  else none

/-- `Triangle.getSharedEdge`: first edge of `tA` also on `tB`. -/
def Mesh.getSharedEdge (m : Mesh) (tA tB : Nat) : Option Nat :=
  (m.tri tA).edges.find? (fun e => (m.tri tB).edges.contains e)

/-- `Strippifier.brokenCullFlow`: at the first vertex of `tA` shared with
`tB`, compare the predecessors (Python indexing with `t-1` wraps from 0 to
the last element).  The Python `None` result (no shared vertex) is falsy at
every call site, so it is modelled as `false`. -/
def Mesh.brokenCullFlow (m : Mesh) (tA tB : Nat) : Bool :=
  let va := (m.tri tA).verts
  let vb := (m.tri tB).verts
  match va.find? (fun v => vb.contains v) with
  | none => false
  | some v =>
    let t := vb.indexOf v
    let tt := va.indexOf v
    vb.getD (if t = 0 then vb.length - 1 else t - 1) 0
      == va.getD (if tt = 0 then va.length - 1 else tt - 1) 0

/-- `Triangle.getNextStripTriSeq`: the other unused triangle on the edge
joining `prev` and `cur`.  When the vertices are not connected the Python
code dereferences `None.triangles`, an AttributeError. -/
def Mesh.getNextStripTriSeq (m : Mesh) (self prev cur : Nat) :
    Except PyErr (Option Nat) :=
  match findEdgeIdx m prev cur with
  | none => .error .attributeError
  | some eid => .ok ((m.edge eid).tris.find? (fun t => t != self && !(m.tri t).used))

/-- First pass of `Triangle.getNextStripTri`: per candidate, the base
weight is its available-neighbour count (an immediate return when it is
zero), adjusted by the prev/cur base when present, together with the
vertex-connectivity figure; the running maximum of the connectivity is
`biggestConnection` (initial 0). -/
def nextStripFirstPass (m : Mesh) (self : Nat) (base : Option (Nat × Nat)) :
    List Nat → List Int → List Int → Int →
    Except PyErr (Sum Nat (List Int × List Int × Int))
  | [], ws, vcs, biggest => .ok (.inr (ws, vcs, biggest))
  | t :: rest, ws, vcs, biggest => do
    let w0 : Int := (m.availableNeighbours t).length
    if w0 = 0 then .ok (.inl t)
    else do
      let (w, vc) ← match base with
        | some (prevVert, curVert) =>
          if m.hasVertex t curVert then
            pure (w0 - 1, (m.availableTris prevVert : Int))
          else
            pure (w0 + 1, (m.availableTris curVert : Int))
        | none => do
          -- `t.getSharedEdge(self).vertices`; a `None` edge would raise
          match m.getSharedEdge t self with
          | none => .error .attributeError
          | some eid =>
            let e := m.edge eid
            pure (w0, (m.availableTris e.v1 : Int) + (m.availableTris e.v2 : Int) - 2)
      let biggest := if vc > biggest then vc else biggest
      nextStripFirstPass m self base rest (ws ++ [w]) (vcs ++ [vc]) biggest

/-- Second pass: integrate connectivity into the weights. -/
def nextStripAdjust (biggest : Int) (ws vcs : List Int) : List Int :=
  (ws.zip vcs).map (fun p => if p.2 < biggest then p.1 - 1 else p.1 + 1)

/-- Final selection loop: lowest weight wins; with a base, a tie won by a
candidate containing the current vertex also wins. -/
def nextStripSelect (m : Mesh) (hasBase : Bool) (curVert : Nat)
    (cands : List Nat) (ws : List Int) : Nat :=
  let n := cands.length
  (List.range n).foldl (fun idx i =>
    if i = 0 then idx
    else if ws.getD i 0 < ws.getD idx 0 ||
        (hasBase && ws.getD i 0 == ws.getD idx 0 && m.hasVertex (cands.getD i 0) curVert)
    then i else idx) 0

/-- `Triangle.getNextStripTri` (the weighted neighbour selection). -/
def Mesh.getNextStripTri (m : Mesh) (self : Nat) (base : Option (Nat × Nat)) :
    Except PyErr (Option Nat) := do
  let trisToUse := m.availableNeighbours self
  if trisToUse.length = 0 then pure none
  else if trisToUse.length = 1 then pure trisToUse.head?
  else do
    match ← nextStripFirstPass m self base trisToUse [] [] 0 with
    | .inl t => pure (some t)
    | .inr (ws, vcs, biggest) =>
      let ws := nextStripAdjust biggest ws vcs
      let idx := nextStripSelect m base.isSome (base.map (·.2) |>.getD 0) trisToUse ws
      pure (trisToUse.get? idx)

/-- The mutable strip-collection state of a `Strippify` call. -/
structure SState where
  m : Mesh
  written : Nat
  strips : List (List Nat)
  normalStrips : List (List Nat)
  uvStrips : List (List Nat)
  hasUv : Bool
deriving DecidableEq, Repr, Inhabited

def SState.setUsed (s : SState) (t : Nat) : SState :=
  { s with m := s.m.setTri t (fun tr => { tr with used := true }) }

/-- `Strippifier.addZTriangle`: emit a lone triangle as the strip
[v0, v2, v1] (with parallel normal and, when present, uv entries). -/
def addZTriangle (s : SState) (t : Nat) : Except PyErr SState := do
  let tr := s.m.tri t
  let v0 := tr.verts.getD 0 0
  let v1 := tr.verts.getD 1 0
  let v2 := tr.verts.getD 2 0
  let n0 := (s.m.vx v0).normal_index
  let n1 := (s.m.vx v1).normal_index
  let n2 := (s.m.vx v2).normal_index
  let uvStrips ← if s.hasUv then do
      let a ← tr.uvGet v0
      let b ← tr.uvGet v2
      let c ← tr.uvGet v1
      pure (s.uvStrips ++ [[a, b, c]])
    else pure s.uvStrips
  .ok { s with
    strips := s.strips ++ [[v0, v2, v1]],
    normalStrips := s.normalStrips ++ [[n0, n2, n1]],
    uvStrips := uvStrips,
    written := s.written + 1,
    m := s.m.setTri t (fun tr => { tr with used := true }) }

/-- The scan loop of `Strippifier.getFirstTri`: Z-emit isolated triangles
on the fly, return immediately on a single-neighbour triangle, otherwise
remember the first triangle with the fewest available neighbours. -/
def getFirstTriGo : List Nat → SState → Nat → Option Nat →
    Except PyErr (SState × Option Nat)
  | [], s, _, res => .ok (s, res)
  | t :: rest, s, curN, res =>
    if !(s.m.tri t).used then
      let c := (s.m.availableNeighbours t).length
      if c = 0 then do
        let s ← addZTriangle s t
        getFirstTriGo rest s curN res
      else if c < curN then
        if c = 1 then .ok (s, some t)
        else getFirstTriGo rest s c (some t)
      else getFirstTriGo rest s curN res
    else getFirstTriGo rest s curN res

/-- `Strippifier.getFirstTri`. -/
def getFirstTri (s : SState) : Except PyErr (SState × Option Nat) :=
  getFirstTriGo (List.range s.m.triangles.length) s 0xFFFF none

/-- The local variables of the strip-growing inner `while` loop of
`Strippify`. -/
structure Walk where
  s : SState
  strip : List Nat
  nStrip : List Nat
  uvStrip : Option (List Nat)   -- `self.uv_strip`; `none` = attribute missing
  prevVert : Nat
  curVert : Nat
  currentTri : Nat
  newTri : Option Nat
  firstTri : Nat
  oldTri : Nat
  reversedList : Bool
deriving DecidableEq, Repr, Inhabited

/-- The `if newTri is None:` block of the inner loop: either end the strip
(`.ok none`), or perform the single reversal attempt (reversing `strip`
and `uv_strip` but not `normal_strip`, and swapping `firstTri` with
`currentTri`).  Reversing a missing `uv_strip` raises AttributeError. -/
def reverseCheck (doSwaps : Bool) (w : Walk) : Except PyErr (Option Walk) :=
  match w.newTri with
  | some _ => .ok (some w)
  | none =>
    if !w.reversedList && decide ((w.s.m.availableNeighbours w.firstTri).length > 0) then do
      let prevVert := w.strip.getD 1 0
      let curVert := w.strip.getD 0 0
      let newTri ← if doSwaps then
          w.s.m.getNextStripTri w.firstTri (some (prevVert, curVert))
        else
          w.s.m.getNextStripTriSeq w.firstTri prevVert curVert
      if !doSwaps && newTri.isNone then
        -- `reachedEnd = True; continue` before any reversal happens
        .ok none
      else do
        let uvStrip ← match w.uvStrip with
          | none => .error .attributeError   -- `self.uv_strip.reverse()`
          | some l => pure (some l.reverse)
        .ok (some { w with
          prevVert := prevVert, curVert := curVert, newTri := newTri,
          strip := w.strip.reverse,
          uvStrip := uvStrip,
          reversedList := true,
          firstTri := w.currentTri,
          currentTri := w.firstTri })
    else .ok none

/-- One compiled body of the inner `while not reachedEnd:` loop of
`Strippify`, with fuel. -/
def innerLoop (doSwaps : Bool) : Nat → Walk → Except PyErr Walk
  | 0, _ => .error .fuelError
  | fuel + 1, w => do
    -- write the next index (vertex, normal and, with uvs, uv entry)
    let nStrip := w.nStrip ++ [(w.s.m.vx w.curVert).normal_index]
    let uvStrip ← if w.s.hasUv then
        match w.uvStrip with
        | none => .error .attributeError
        | some l => do
          let u ← (w.s.m.tri w.currentTri).uvGet w.curVert
          pure (some (l ++ [u]))
      else pure w.uvStrip
    let w := { w with
      strip := w.strip ++ [w.curVert], nStrip := nStrip, uvStrip := uvStrip,
      s := { w.s with written := w.s.written + 1 } }
    match ← reverseCheck doSwaps w with
    | none => .ok w
    | some w => do
      -- optional swap handling (doSwaps only; note: appends to strip only)
      let (w, secNewTri) ← if doSwaps then do
          let nt ← match w.newTri with
            | none => .error .attributeError
            | some t => pure t
          let snt ← w.s.m.getNextStripTri nt (some (w.prevVert, w.curVert))
          match snt with
          | some s' =>
            if !w.s.m.hasVertex s' w.curVert then
              pure ({ w with
                strip := w.strip ++ [w.prevVert],
                prevVert := w.curVert, curVert := w.prevVert }, some s')
            else pure (w, some s')
          | none => pure (w, none)
        else pure (w, none)
      let newTriV ← match w.newTri with
        | none => .error .attributeError
        | some t => pure t
      match w.s.m.getThirdVertex newTriV w.prevVert w.curVert with
      | none => .ok w   -- `reachedEnd = True; continue`
      | some nextVert => do
        let prevVert := w.curVert
        let curVert := nextVert
        let oldTri := w.currentTri
        let currentTri := newTriV
        let s := (Walk.s w).setUsed currentTri
        let newTri ← if s.m.brokenCullFlow oldTri currentTri then pure none
          else if doSwaps then pure secNewTri
          else s.m.getNextStripTriSeq currentTri prevVert curVert
        innerLoop doSwaps fuel
          { w with s := s, prevVert := prevVert, curVert := curVert,
                   oldTri := oldTri, currentTri := currentTri, newTri := newTri }

/-- The winding-correction check run after a strip is finished: at the
first of the three leading strip entries equal to the first vertex of
`firstTri`, test whether the second vertex of `firstTri` follows it
cyclically. -/
def windingFixNeeded (fv0 fv1 : Nat) (strip : List Nat) : Bool :=
  match (List.range 3).find? (fun i => strip.getD i 0 == fv0) with
  | none => false
  | some i => fv1 == strip.getD (if i = 2 then 0 else i + 1) 0

/-- Attribute access on a possibly-`None` value: `None` raises the
given error, otherwise the value is produced. -/
def fromOpt {α : Type} (e : PyErr) : Option α → Except PyErr α
  | none => .error e
  | some v => pure v

/-- One body of the outer `while self.written != triCount:` loop of
`Strippify`, with fuel. -/
def outerLoop (uvT doSwaps : Bool) (triCount : Nat) :
    Nat → SState → Option Nat → Except PyErr SState
  | 0, _, _ => .error .fuelError
  | fuel + 1, s, firstTri? =>
    if s.written = triCount then .ok s
    else do
      -- `currentTri = firstTri; currentTri.used = True` (None raises)
      let firstTri ← fromOpt .attributeError firstTri?
      let s := s.setUsed firstTri
      let newTri? ← s.m.getNextStripTri firstTri none
      -- `brokenCullFlow(currentTri, None)` would iterate `None.vertices`
      let newTri ← fromOpt .typeError newTri?
      if s.m.brokenCullFlow firstTri newTri then do
        let s ← addZTriangle s firstTri
        let (s, ft) ← getFirstTri s
        outerLoop uvT doSwaps triCount fuel s ft
      else do
        let s := s.setUsed newTri
        let eid ← fromOpt .attributeError (s.m.getSharedEdge firstTri newTri)
        let sv0 := (s.m.edge eid).v1
        let sv1 := (s.m.edge eid).v2
        let prevVert? := s.m.getThirdVertex firstTri sv0 sv1
        let secNewTri? ← s.m.getNextStripTri newTri none
        match secNewTri? with
        | none => do
          -- two-triangle strip: emit [prev, sv1, sv0, third] directly
          let currentVert := sv1
          let nextVert := sv0
          let thirdVertex? := s.m.getThirdVertex newTri currentVert nextVert
          let prevVert ← fromOpt .attributeError prevVert?
          let thirdVertex ← fromOpt .attributeError thirdVertex?
          let strips := s.strips ++ [[prevVert, currentVert, nextVert, thirdVertex]]
          let normalStrips := s.normalStrips ++
            [[(s.m.vx prevVert).normal_index, (s.m.vx currentVert).normal_index,
              (s.m.vx nextVert).normal_index, (s.m.vx thirdVertex).normal_index]]
          let s ← if uvT then do
              let a ← (s.m.tri firstTri).uvGet prevVert
              let b ← (s.m.tri firstTri).uvGet currentVert
              let c ← (s.m.tri firstTri).uvGet nextVert
              let d ← (s.m.tri newTri).uvGet thirdVertex
              pure { s with
                strips := strips, normalStrips := normalStrips,
                uvStrips := s.uvStrips ++ [[a, b, c, d]],
                written := s.written + 2 }
            else
              pure { s with
                strips := strips, normalStrips := normalStrips,
                written := s.written + 2 }
          let (s, ft) ← getFirstTri s
          outerLoop uvT doSwaps triCount fuel s ft
        | some secNewTri => do
          let prevVert ← fromOpt .attributeError prevVert?
          let cvnv := if s.m.hasVertex secNewTri sv0 then (sv1, sv0) else (sv0, sv1)
          let currentVert := cvnv.1
          let nextVert := cvnv.2
          -- initializing the strip base
          let strip := [prevVert, currentVert, nextVert]
          let nStrip := [(s.m.vx prevVert).normal_index,
                         (s.m.vx currentVert).normal_index,
                         (s.m.vx nextVert).normal_index]
          let uvStrip ← if uvT then do
              let a ← (s.m.tri firstTri).uvGet prevVert
              let b ← (s.m.tri firstTri).uvGet currentVert
              let c ← (s.m.tri firstTri).uvGet nextVert
              pure (some [a, b, c])
            else pure (none : Option (List Nat))
          let s := { s with written := s.written + 1 }
          -- shift verts two forward; `None` third vertex fails at its
          -- `.index` use in the first inner-loop iteration
          let cur2 ← fromOpt .attributeError
            (s.m.getThirdVertex newTri currentVert nextVert)
          let newTri2 : Option Nat :=
            if s.m.brokenCullFlow newTri secNewTri then none else some secNewTri
          let w : Walk := {
            s := s, strip := strip, nStrip := nStrip, uvStrip := uvStrip,
            prevVert := nextVert, curVert := cur2,
            currentTri := newTri, newTri := newTri2,
            firstTri := firstTri, oldTri := firstTri, reversedList := false }
          let w ← innerLoop doSwaps fuel w
          -- winding correction: duplicate the leading index once
          let fv0 := (w.s.m.tri w.firstTri).verts.getD 0 0
          let fv1 := (w.s.m.tri w.firstTri).verts.getD 1 0
          let fix := windingFixNeeded fv0 fv1 w.strip
          let strip := if fix then w.strip.getD 0 0 :: w.strip else w.strip
          let nStrip := if fix then w.nStrip.getD 0 0 :: w.nStrip else w.nStrip
          let uvStrip ← if uvT then do
              let l ← fromOpt .attributeError w.uvStrip
              pure (some (if fix then l.getD 0 0 :: l else l))
            else pure w.uvStrip
          let s ← if uvT then do
              let l ← fromOpt .attributeError uvStrip
              pure { w.s with
                  strips := w.s.strips ++ [strip],
                  normalStrips := w.s.normalStrips ++ [nStrip],
                  uvStrips := w.s.uvStrips ++ [l] }
            else pure { w.s with
                strips := w.s.strips ++ [strip],
                normalStrips := w.s.normalStrips ++ [nStrip] }
          let (s, ft) ← getFirstTri s
          outerLoop uvT doSwaps triCount fuel s ft

/-- The result of a `Strippify` call: `uvStrips` is `some _` exactly when
a truthy uv list was passed (the Python function then returns a triple
instead of a pair). -/
structure StripOutput where
  strips : List (List Nat)
  normalStrips : List (List Nat)
  uvStrips : Option (List (List Nat))
deriving DecidableEq, Repr, Inhabited

/-- The `concat=True` stitching (including the aliasing of `result` with
`strips[0]`: the element read at step 1 is the original last element). -/
def concatStrips : List (List Nat) → Except PyErr (List (List Nat))
  | [] => .error .indexError
  | s0 :: rest => do
    let mut acc := s0
    let mut prev := s0
    for cur in rest do
      let last ← match prev.getLast? with
        | none => .error .indexError
        | some x => pure x
      let head ← match cur.head? with
        | none => .error .indexError
        | some x => pure x
      acc := acc ++ [last, head] ++ cur
      prev := cur
    pure [acc]

/-- `Strippifier.Strippify`.  Defaults mirror the Python signature:
`uv_list=None, doSwaps=False, concat=False, raiseTopoError=False`. -/
def Strippify (indexList : List Nat) (uvList : Option (List Nat) := none)
    (doSwaps : Bool := false) (concat : Bool := false)
    (raiseTopoError : Bool := false) (fuel : Nat := 1000) :
    Except PyErr StripOutput := do
  let uvT := pyTruthyList uvList
  let m ← buildMesh raiseTopoError indexList uvList
  let s0 : SState := {
    m := m, written := 0, strips := [], normalStrips := [], uvStrips := [],
    hasUv := uvT }
  let triCount := m.triangles.length
  let (s, ft) ← getFirstTri s0
  let s ← outerLoop uvT doSwaps triCount fuel s ft
  let result ← if concat then concatStrips s.strips else pure s.strips
  if uvT then pure ⟨result, s.normalStrips, some s.uvStrips⟩
  else pure ⟨result, s.normalStrips, none⟩

/-! ### Input-level edge multiplicity (for the manifold conditions) -/

/-- The three ordered vertex pairs triangle `i` of a flat index list
passes to `Triangle.addEdge`, in construction order. -/
def triPairsAt (triList : List Nat) (i : Nat) : List (Nat × Nat) :=
  let a := triList.getD (i * 3) 0
  let b := triList.getD (i * 3 + 1) 0
  let c := triList.getD (i * 3 + 2) 0
  [(c, a), (a, b), (b, c)]

/-- All ordered vertex pairs a flat index list passes to
`Triangle.addEdge`, in construction order. -/
def triPairs (ixs : List Nat) : List (Nat × Nat) :=
  (List.range (ixs.length / 3)).flatMap (triPairsAt ixs)

/-- Unordered pair equality. -/
def pairMatches (p q : Nat × Nat) : Bool :=
  (p.1 == q.1 && p.2 == q.2) || (p.1 == q.2 && p.2 == q.1)

/-- How many triangle sides of the input lie on the unordered edge `p`. -/
def edgeIncidences (ixs : List Nat) (p : Nat × Nat) : Nat :=
  (triPairs ixs).countP (pairMatches p)

/-- Some edge of the input lies on three or more triangle sides. -/
def hasTripleEdge (ixs : List Nat) : Bool :=
  (triPairs ixs).any (fun p => 2 < edgeIncidences ixs p)

/-- Every edge of the input lies on at most two triangle sides. -/
def manifoldOK (ixs : List Nat) : Bool :=
  (triPairs ixs).all (fun p => edgeIncidences ixs p ≤ 2)

/-- The unordered vertex pair carried by an edge record. -/
def edgePair (e : Edge) : Nat × Nat := (e.v1, e.v2)

/-- The invariant the strict-mode mesh construction maintains on the edge
store relative to the ordered pairs `ps` already passed to
`Triangle.addEdge`: each record counts exactly the incidences of its
unordered pair among `ps` and carries at most two of them, any pair
missing from the store never occurred in `ps`, and no two records carry
the same unordered pair. -/
def EdgeInv (ps : List (Nat × Nat)) (es : List Edge) : Prop :=
  (∀ i, i < es.length →
    (es.getD i default).tris.length =
      ps.countP (pairMatches (edgePair (es.getD i default))) ∧
    (es.getD i default).tris.length ≤ 2) ∧
  (∀ q : Nat × Nat, (∀ e ∈ es, pairMatches (edgePair e) q = false) →
    ps.countP (pairMatches q) = 0) ∧
  (∀ i j, i < es.length → j < es.length → i ≠ j →
    pairMatches (edgePair (es.getD i default)) (edgePair (es.getD j default)) = false)

/-- The length relations the strip-growing inner loop maintains on the
walk: normal sequence as long as the vertex sequence, at least three
entries, a uv sequence of the same length whenever a uv list was
supplied, and the uv mode recorded in the state. -/
def WInv (uvT : Bool) (w : Walk) : Prop :=
  w.nStrip.length = w.strip.length ∧ 3 ≤ w.strip.length ∧
  (uvT = true → ∃ l, w.uvStrip = some l ∧ l.length = w.strip.length) ∧
  w.s.hasUv = uvT

/-- The length relations `Strippify` maintains on the accumulated strip
lists: vertex and normal lists pairwise equal length, every strip at
least three long, uv lists pairwise equal length when a uv list was
supplied. -/
def SInv (uvT : Bool) (s : SState) : Prop :=
  List.Forall₂ (fun a b => a.length = b.length) s.strips s.normalStrips ∧
  (∀ st ∈ s.strips, 3 ≤ st.length) ∧
  (uvT = true → List.Forall₂ (fun a b => a.length = b.length) s.strips s.uvStrips) ∧
  s.hasUv = uvT

/-! ### Concrete inputs used by the claims -/

/-- The canonical smoke test: a unit square split in two triangles. -/
def squareIxs : List Nat := [0, 1, 2, 0, 2, 3]

/-- A closed band of eight triangles around a square cylinder (top rim
0-3, bottom rim 4-7) with the winding of the fifth triangle flipped, so
the strip grown from triangle 0 dead-ends at the flip while triangle 0
still has an unused neighbour: this drives the single reversal attempt. -/
def ringIxs : List Nat :=
  [0, 4, 1, 1, 4, 5, 1, 5, 2, 2, 5, 6, 2, 3, 6, 3, 6, 7, 3, 7, 0, 0, 7, 4]

/-- A uv index list for `ringIxs` (three uv indices per triangle). -/
def ringUv : List Nat := List.range 24

/-- Three triangles sharing the edge {0, 1}: a non-manifold input. -/
def tripleIxs : List Nat := [0, 1, 2, 0, 1, 3, 0, 1, 4]

end Stripify

/-! ## Binary writer (`nn_model.py` / `nn.py` `File`, `GNO`) -/

/-- Python `round` on an exact value: round half to even. -/
def pyRound (q : ℚ) : Int :=
  let f := ⌊q⌋
  let r := q - f
  if r < 1 / 2 then f
  else if 1 / 2 < r then f + 1
  else if f % 2 = 0 then f else f + 1

/-- Big-endian bytes of a 16-bit value. -/
def be2 (n : Nat) : List Nat := [n / 256 % 256, n % 256]
/-- Big-endian bytes of a 32-bit value. -/
def be4 (n : Nat) : List Nat :=
  [n / 16777216 % 256, n / 65536 % 256, n / 256 % 256, n % 256]
/-- Little-endian bytes of a 16-bit value. -/
def le2 (n : Nat) : List Nat := [n % 256, n / 256 % 256]
/-- Little-endian bytes of a 32-bit value. -/
def le4 (n : Nat) : List Nat :=
  [n % 256, n / 256 % 256, n / 65536 % 256, n / 16777216 % 256]

/-- The open file object of `File`: the byte string written so far plus
the current position.  `endianBig` models `self.endian` (`'>'` = true);
the model writer keeps the default `'>'` everywhere the claims look. -/
structure WFile where
  data : List Nat
  pos : Nat
  endianBig : Bool := true
deriving DecidableEq, Repr, Inhabited

/-- Raw `fileobject.write`: overwrite at the current position (zero-fill
when the position is beyond the end, as a file seek past EOF does) and
advance. -/
def WFile.writeRaw (f : WFile) (bs : List Nat) : WFile :=
  let d := if f.data.length < f.pos then
      f.data ++ List.replicate (f.pos - f.data.length) 0
    else f.data
  { f with data := d.take f.pos ++ bs ++ d.drop (f.pos + bs.length),
           pos := f.pos + bs.length }

def WFile.tell (f : WFile) : Nat := f.pos
def WFile.seek (f : WFile) (p : Nat) : WFile := { f with pos := p }

/-- `struct.pack` range check: out-of-range values raise `struct.error`. -/
def packCheck (lo hi v : Int) : Except PyErr Unit :=
  if lo ≤ v ∧ v ≤ hi then .ok () else .error .structError

/-- `write_byte` (`'B'`). -/
def WFile.write_byte (f : WFile) (v : Int) : Except PyErr WFile := do
  let _ ← packCheck 0 255 v
  .ok (f.writeRaw [v.toNat % 256])

/-- `write_short` (`'H'`, current endianness). -/
def WFile.write_short (f : WFile) (v : Int) : Except PyErr WFile := do
  let _ ← packCheck 0 65535 v
  .ok (f.writeRaw (if f.endianBig then be2 v.toNat else le2 v.toNat))

/-- `write_int` (`'I'`, current endianness). -/
def WFile.write_int (f : WFile) (v : Int) : Except PyErr WFile := do
  let _ ← packCheck 0 4294967295 v
  .ok (f.writeRaw (if f.endianBig then be4 v.toNat else le4 v.toNat))

/-- `write_signed_byte` (`'b'`): two's complement byte. -/
def WFile.write_signed_byte (f : WFile) (v : Int) : Except PyErr WFile := do
  let _ ← packCheck (-128) 127 v
  .ok (f.writeRaw [(v % 256).toNat])

/-- `write_signed_short` (`'h'`, current endianness). -/
def WFile.write_signed_short (f : WFile) (v : Int) : Except PyErr WFile := do
  let _ ← packCheck (-32768) 32767 v
  let u := (v % 65536).toNat
  .ok (f.writeRaw (if f.endianBig then be2 u else le2 u))

/-- `write_signed_int` (`'i'`, current endianness). -/
def WFile.write_signed_int (f : WFile) (v : Int) : Except PyErr WFile := do
  let _ ← packCheck (-2147483648) 2147483647 v
  let u := (v % 4294967296).toNat
  .ok (f.writeRaw (if f.endianBig then be4 u else le4 u))

/-- `write_short_list` (`'{n}H'`). -/
def WFile.write_short_list (f : WFile) (l : List Nat) : Except PyErr WFile := do
  let _ ← l.foldlM (fun _ v => packCheck 0 65535 v) ()
  .ok (f.writeRaw (l.flatMap (fun v => if f.endianBig then be2 v else le2 v)))

/-- The `GNO` container bookkeeping object: the shared NOF0 offset table. -/
structure GNOTable where
  NOF0_offsets : List Nat
deriving DecidableEq, Repr, Inhabited

/-- `File.write_int_NOF0`: append `tell()` to the shared offset table,
then write the 4-byte integer at the current position. -/
def WFile.write_int_NOF0 (f : WFile) (v : Int) (gno : GNOTable) :
    Except PyErr (WFile × GNOTable) := do
  let gno := { gno with NOF0_offsets := gno.NOF0_offsets ++ [f.tell] }
  let f ← f.write_int v
  .ok (f, gno)

/-- The padding loop `while tell() % n != 0: write(b'\x00')`.  One pass
writes at most `n - 1` zero bytes, so running the loop body with step
bound `k = n` is the loop itself (structural recursion on the bound keeps
the definition computable by the kernel). -/
def WFile.alignLoop (n : Nat) : Nat → WFile → WFile
  | 0, f => f
  | k + 1, f => if f.pos % n ≠ 0 then WFile.alignLoop n k (f.writeRaw [0]) else f

/-- `write_8bit_aligned`: pad with zero bytes while `tell() & 0x3` is
non-zero (i.e. until the position is a multiple of 4). -/
def WFile.write_8bit_aligned (f : WFile) : WFile := WFile.alignLoop 4 4 f

/-- `write_32bit_aligned`: pad with zero bytes while `tell() & 0x1F` is
non-zero (i.e. until the position is a multiple of 32). -/
def WFile.write_32bit_aligned (f : WFile) : WFile := WFile.alignLoop 32 32 f

/-! ### `File.read` / `File.write` offset handling (nn_model.py) -/

/-- Python truthiness of the optional numeric argument (`if offset:` /
`if size:`): `None` and `0` are both falsy. -/
def pyTruthyNat : Option Nat → Bool
  | none => false
  | some n => n != 0

/-- `fileobject.read(k)` / `fileobject.read()` at position `p`: the bytes
returned and the new position. -/
def rawRead (data : List Nat) (p : Nat) : Option Nat → List Nat × Nat
  | some k => let out := (data.drop p).take k; (out, p + out.length)
  | none => let out := data.drop p; (out, p + out.length)

/-- `fileobject.write` at an arbitrary position (zero-fill past EOF). -/
def writeAtData (data : List Nat) (p : Nat) (bs : List Nat) : List Nat :=
  let d := if data.length < p then data ++ List.replicate (p - data.length) 0 else data
  d.take p ++ bs ++ d.drop (p + bs.length)

/-- `File.read(size=None, offset=None)` from nn_model.py: with a truthy
offset, seek there, read (a falsy `size` reads everything) and restore the
position; otherwise read at the current position (`if size:` again treats
0 like `None`). -/
def fileRead (data : List Nat) (pos : Nat) (size offset : Option Nat) :
    List Nat × Nat :=
  if pyTruthyNat offset then
    ((rawRead data (offset.getD 0) size).1, pos)
  else
    if pyTruthyNat size then rawRead data pos (some (size.getD 0))
    else rawRead data pos none

/-- `File.write(bytes, offset=None)` from nn_model.py: with a truthy
offset, write there and restore the position; otherwise write at the
current position. -/
def fileWrite (data : List Nat) (pos : Nat) (bs : List Nat) (offset : Option Nat) :
    List Nat × Nat :=
  if pyTruthyNat offset then
    (writeAtData data (offset.getD 0) bs, pos)
  else
    (writeAtData data pos bs, pos + bs.length)

/-! ### Quantization (`write_normals`, `write_uvs`, `write_vertex_weights`) -/

/-- `write_normals`: each component is `int(round(p * 64))` written as a
signed byte; returns the normal count. -/
def write_normals (f : WFile) (normals : List (ℚ × ℚ × ℚ)) :
    Except PyErr (WFile × Nat) := do
  let f ← normals.foldlM (fun f n => do
      let f ← f.write_signed_byte (pyRound (n.1 * 64))
      let f ← f.write_signed_byte (pyRound (n.2.1 * 64))
      f.write_signed_byte (pyRound (n.2.2 * 64))) f
  .ok (f, normals.length)

/-- `write_uvs`: `u = round(u*256)`, `v = round(-(v-1)*256)`, both written
as signed 16-bit integers; returns the uv count. -/
def write_uvs (f : WFile) (uvs : List (ℚ × ℚ)) : Except PyErr (WFile × Nat) := do
  let f ← uvs.foldlM (fun f uv => do
      let f ← f.write_signed_short (pyRound (uv.1 * 256))
      f.write_signed_short (pyRound (-(uv.2 - 1) * 256))) f
  .ok (f, uvs.length)

/-- `write_vertex_weights`: per vertex the two bone bytes then
`round(weight*16384)` as a signed short; ends 4-byte aligned. -/
def write_vertex_weights (f : WFile) (weights : List ℚ) (bones : List (List Int)) :
    Except PyErr WFile := do
  let f ← (weights.zip bones).foldlM (fun f wb => do
      let f ← wb.2.foldlM (fun f bone => f.write_byte bone) f
      f.write_signed_short (pyRound (wb.1 * 16384))) f
  .ok f.write_8bit_aligned

/-! ### Writer operation sequences (for the NOF0 table order invariant) -/

/-- A writer operation of the `File` class (the operations
`write_new_gno_file_2` and its helpers perform on the output file). -/
inductive WOp where
  | wRaw (bs : List Nat)
  | wByte (v : Int)
  | wShort (v : Int)
  | wInt (v : Int)
  | wSByte (v : Int)
  | wSShort (v : Int)
  | wSInt (v : Int)
  | wShortList (l : List Nat)
  | wIntNOF0 (v : Int)
  | wAlign4
  | wAlign32
  | wSeek (p : Nat)
deriving DecidableEq, Repr

/-- Effect of one writer operation on the file and the shared table. -/
def runOp (st : WFile × GNOTable) : WOp → Except PyErr (WFile × GNOTable)
  | .wRaw bs => .ok (st.1.writeRaw bs, st.2)
  | .wByte v => do .ok (← st.1.write_byte v, st.2)
  | .wShort v => do .ok (← st.1.write_short v, st.2)
  | .wInt v => do .ok (← st.1.write_int v, st.2)
  | .wSByte v => do .ok (← st.1.write_signed_byte v, st.2)
  | .wSShort v => do .ok (← st.1.write_signed_short v, st.2)
  | .wSInt v => do .ok (← st.1.write_signed_int v, st.2)
  | .wShortList l => do .ok (← st.1.write_short_list l, st.2)
  | .wIntNOF0 v => st.1.write_int_NOF0 v st.2
  | .wAlign4 => .ok (st.1.write_8bit_aligned, st.2)
  | .wAlign32 => .ok (st.1.write_32bit_aligned, st.2)
  | .wSeek p => .ok (st.1.seek p, st.2)

/-- Run a sequence of writer operations. -/
def runOps (st : WFile × GNOTable) : List WOp → Except PyErr (WFile × GNOTable)
  | [] => .ok st
  | op :: ops => do runOps (← runOp st op) ops

/-- The table entries one operation at position `pos` records: the
position itself for a relocatable-integer write, nothing otherwise. -/
def nof0Delta (pos : Nat) : WOp → List Nat
  | .wIntNOF0 _ => [pos]
  | _ => []

/-- The file positions at which the relocatable-integer writes of an
operation sequence happen, in execution order. -/
def nof0Positions (st : WFile × GNOTable) : List WOp → List Nat
  | [] => []
  | op :: ops =>
    match runOp st op with
    | .error _ => []
    | .ok st' => nof0Delta st.1.pos op ++ nof0Positions st' ops

/-- `write_NOF0_header` (nn.py): align to 32 bytes, write the chunk
header (little-endian tag+size, big-endian count, 4 pad bytes), then dump
the offset table in order with `write_int`. -/
def write_NOF0_header (f : WFile) (gno : GNOTable) : Except PyErr WFile := do
  let f := f.write_32bit_aligned
  let offset_count := gno.NOF0_offsets.length
  let start_offset := f.tell + 0x10
  let estimated_size := (start_offset + gno.NOF0_offsets.length * 4 + 0x1F) / 32 * 32
  let final_size := estimated_size - start_offset + 0x8
  -- 'NOF0' = bytes 78, 79, 70, 48
  let f := f.writeRaw ([78, 79, 70, 48] ++ le4 final_size)
  let f ← f.write_int offset_count
  let f := f.writeRaw [0, 0, 0, 0]
  gno.NOF0_offsets.foldlM (fun f off => f.write_int off) f

/-! ### `write_mesh_faces` (nn.py) -/

/-- The `Face` dataclass as used by `write_mesh_faces` (nn.py): the
`create_faces` there passes the vertex index triple for the normals as
well. -/
structure PFace where
  vertex : List Nat
  normal : List Nat
  texcoord : List Nat
deriving DecidableEq, Repr, Inhabited

/-- Python list indexing with an IndexError on overflow. -/
def ixE (l : List Nat) (i : Nat) : Except PyErr Nat :=
  if i < l.length then .ok (l.getD i 0) else .error .indexError

/-- Swap the first two entries of a list (a Python parallel assignment on
indices 0 and 1; IndexError when fewer than two entries exist). -/
def swapPair (l : List Nat) : Except PyErr (List Nat) :=
  match l with
  | a :: b :: rest => .ok (b :: a :: rest)
  | _ => .error .indexError

/-- `swap_f1_f2`: swap the first two vertex/normal entries, and the first
two texcoord entries when the texcoord list is truthy. -/
def swap_f1_f2 (fc : PFace) : Except PyErr PFace := do
  let v ← swapPair fc.vertex
  let n ← swapPair fc.normal
  if fc.texcoord.isEmpty then .ok { fc with vertex := v, normal := n }
  else do
    let t ← swapPair fc.texcoord
    .ok { vertex := v, normal := n, texcoord := t }

/-- The loop body state of `strip_faces`: accumulated face sets, the
current set, the previous face (after its swaps) and the xor bit. -/
def stripFacesGo (doesUV : Bool) : List PFace → PFace → List (List PFace) →
    List PFace → Nat → Except PyErr (List (List PFace))
  | [], _, sets, cur, _ =>
    .ok (if cur.isEmpty then sets else sets ++ [cur])
  | fc :: rest, last, sets, cur, xb => do
    let fc ← if xb % 2 = 1 then swap_f1_f2 fc else pure fc
    let contig ←
      if doesUV then do
        let a0 ← ixE fc.vertex 0; let a1 ← ixE fc.vertex 1
        let b1 ← ixE last.vertex 1; let b2 ← ixE last.vertex 2
        if a0 == b1 && a1 == b2 then do
          let ta0 ← ixE fc.texcoord 0; let ta1 ← ixE fc.texcoord 1
          let tb1 ← ixE last.texcoord 1; let tb2 ← ixE last.texcoord 2
          pure (ta0 == tb1 && ta1 == tb2)
        else pure false
      else do
        let a0 ← ixE fc.vertex 0; let a1 ← ixE fc.vertex 1
        let b1 ← ixE last.vertex 1; let b2 ← ixE last.vertex 2
        pure (a0 == b1 && a1 == b2)
    if contig then
      stripFacesGo doesUV rest fc sets (cur ++ [fc]) ((xb + 1) % 2)
    else do
      let fc ← if xb % 2 = 0 then swap_f1_f2 fc else pure fc
      -- `xor_bool = 1` followed by the loop-end `xor_bool ^= 1` gives 0
      stripFacesGo doesUV rest fc (sets ++ [cur]) [fc] 0

/-- `strip_faces`: greedy in-order grouping of consecutive faces into
strip runs, swapping the leading two corners of every run head and of
every second face. -/
def strip_faces (faces : List PFace) : Except PyErr (List (List PFace)) := do
  match faces with
  | [] => .error .indexError   -- `faces[0]`
  | f0 :: rest => do
    let doesUV := !f0.texcoord.isEmpty
    let f0 ← swap_f1_f2 f0
    stripFacesGo doesUV rest f0 [] [f0] 0

/-- `create_faces` (nn.py `write_mesh_faces`): chunk the flat index list
in triples, drop incomplete triples, attach uv triples when the uv list is
truthy (the vertex triple doubles as the normal triple). -/
def create_faces (vertices : List Nat) (uvs : Option (List Nat)) : List PFace :=
  let dv := divideChunks3 vertices
  let uvT := pyTruthyList uvs
  let du := if uvT then divideChunks3 (uvs.getD []) else List.replicate dv.length [0, 0, 0]
  (dv.zip du).filterMap (fun p =>
    if p.1.length < 3 then none
    else some { vertex := p.1, normal := p.1, texcoord := if uvT then p.2 else [] })

/-- `write_face`: vertex, normal and (when truthy) texcoord shorts for
all three corners. -/
def write_face (f : WFile) (fc : PFace) : Except PyErr WFile := do
  let f ← f.write_short (← ixE fc.vertex 0)
  let f ← f.write_short (← ixE fc.normal 0)
  let f ← if fc.texcoord.isEmpty then pure f else do f.write_short (← ixE fc.texcoord 0)
  let f ← f.write_short (← ixE fc.vertex 1)
  let f ← f.write_short (← ixE fc.normal 1)
  let f ← if fc.texcoord.isEmpty then pure f else do f.write_short (← ixE fc.texcoord 1)
  let f ← f.write_short (← ixE fc.vertex 2)
  let f ← f.write_short (← ixE fc.normal 2)
  if fc.texcoord.isEmpty then pure f else do f.write_short (← ixE fc.texcoord 2)

/-- `write_face_partial`: only the third corner. -/
def write_face_tail (f : WFile) (fc : PFace) : Except PyErr WFile := do
  let f ← f.write_short (← ixE fc.vertex 2)
  let f ← f.write_short (← ixE fc.normal 2)
  if fc.texcoord.isEmpty then pure f else do f.write_short (← ixE fc.texcoord 2)

/-- The per-mesh abstraction of the host (bpy) data `write_new_gno_file_2`
consumes: raw vertex positions, triangulated polygon index lists, the
`getNormalData` result, the `get_mesh_uvs_with_indices_old` result
(`none` models the `False` returned for a mesh without uv layers), and
the per-mesh record data (`get_mesh_data`: bone group, material index,
bounding box; the bone id itself is the constant 0x46 in the source). -/
structure BMesh where
  verts : List (ℚ × ℚ × ℚ)
  polys : List (List Nat)
  normals : List (ℚ × ℚ × ℚ)
  uvData : Option (List (ℚ × ℚ) × List Nat)
  boneGroup : Int
  matIndex : Nat
  boundsPos : ℚ × ℚ × ℚ
  boundsScale : ℚ
deriving DecidableEq, Repr, Inhabited

/-- The `FaceInfo` records returned by `write_mesh_faces`. -/
structure FaceInfoR where
  flags : Nat
  offset : Nat
  size : Nat
deriving DecidableEq, Repr, Inhabited

/-- The fixed 20-byte face-blob preamble of `write_mesh_faces`. -/
def face_data_start (flags : Nat) : List Nat :=
  if flags == 0x0009000A then
    [0x08, 0x50, 0, 0, 0x1E, 0, 0x08, 0x60, 0, 0, 0, 0, 0x10, 0, 0, 0x10, 0x08, 0, 0, 0]
  else
    [0x08, 0x50, 0, 0, 0x1E, 0, 0x08, 0x60, 0, 0, 0, 3, 0x10, 0, 0, 0x10, 0x08, 0, 0, 0]

/-- One face set of the `write_mesh_faces` output loop: the 0x99 marker,
the length short, the texcoord increments, the full first face and the
third corner of every further face. -/
def writeFaceSet (f : WFile) (texInc : Nat) (set : List PFace) :
    Except PyErr WFile := do
  let f := f.writeRaw [0x99]
  let f ← f.write_short (set.length + 2)
  let set := set.map (fun fc =>
    if fc.texcoord.isEmpty then fc
    else { fc with texcoord := fc.texcoord.map (· + texInc) })
  match set with
  | [] => .error .indexError   -- `set[0]`
  | first :: rest => do
    let f ← write_face f first
    rest.foldlM write_face_tail f

/-- The per-mesh loop of `write_mesh_faces`, threading the index
increments. -/
def writeMeshFacesGo (flags : Nat) (muv : Option (List (List Nat))) :
    List (Nat × BMesh) → WFile → Nat → Nat → Nat → List FaceInfoR →
    Except PyErr (WFile × List FaceInfoR)
  | [], f, _, _, _, infos => .ok (f, infos)
  | (i, m) :: rest, f, vertInc, normInc, texInc, infos => do
    let face_indices := (m.polys.flatMap id).map (· + vertInc)
    let uvs ← match muv with
      | none => pure none
      | some l => if i < l.length then pure (some (l.getD i [])) else .error .indexError
    let all_faces := create_faces face_indices uvs
    let face_sets ← strip_faces all_faces
    let f := f.write_32bit_aligned
    let offset := f.pos
    let f := f.writeRaw (face_data_start flags)
    let f := f.writeRaw [if muv.isSome then 0x14 else 0x04]
    let f ← face_sets.foldlM (fun f set => writeFaceSet f texInc set) f
    let vertInc := vertInc + m.verts.length
    let normInc := normInc + m.verts.length
    let texInc ← match muv with
      | none => pure texInc
      | some l =>
        match (l.getD i []).max? with
        | none => .error .valueError   -- `max([])`
        | some mx => pure (texInc + mx + 1)
    let f := f.write_32bit_aligned
    let size := f.pos - offset
    writeMeshFacesGo flags muv rest f vertInc normInc texInc
      (infos ++ [⟨flags, offset, size⟩])

/-- `write_mesh_faces` (nn.py line 378): stripify each mesh's triangle
list with `strip_faces` and emit the framed face blobs; `muv` models the
`meshes_uv_indices` argument (`none` = the default `False`). -/
def write_mesh_faces (f : WFile) (flags : Nat) (meshes : List BMesh)
    (muv : Option (List (List Nat))) : Except PyErr (WFile × List FaceInfoR) :=
  writeMeshFacesGo flags (if pyTruthyList muv then muv else none)
    meshes.enum f 0 0 0 []

/-! ### `write_new_gno_file_2` (nn.py) -/

/-- The abstraction of one material as produced by `get_all_materials`
(nn.py): colour, alpha, the texture counter and the per-texture id /
reflective flag pairs (appended in lockstep in the source, hence zipped
here). -/
structure BMaterial where
  color : ℚ × ℚ × ℚ
  alpha : ℚ
  texture_count : Nat
  textures : List (Nat × Bool)
deriving DecidableEq, Repr, Inhabited

/-- The packed `'>I12f10I'` material body plus the `'>4If'` texture
records of `write_materials` (nn.py line 309). -/
def matBody (f32 : ℚ → List Nat) (mat : BMaterial) : List Nat :=
  let c := mat.color
  be4 0x1000000 ++ f32 c.1 ++ f32 c.2.1 ++ f32 c.2.2 ++ f32 mat.alpha ++
    f32 c.1 ++ f32 c.2.1 ++ f32 c.2.2 ++
    f32 (9 / 10) ++ f32 (9 / 10) ++ f32 (9 / 10) ++ f32 2 ++
    f32 (299999982118607 / 1000000000000000) ++
    be4 0x1 ++ be4 0x4 ++ be4 0x5 ++ be4 0x5 ++ be4 0x2 ++ be4 0x0 ++
    be4 0x6 ++ be4 0x7 ++ be4 0x0 ++ be4 0x0 ++
    (if mat.texture_count > 0 then
      mat.textures.flatMap (fun t =>
        be4 (if t.2 then 0x400C2004 else 0x400C0101) ++ be4 t.1 ++
          be4 0x80000000 ++ be4 0x0 ++ f32 1)
    else [])

/-- `texture_count_int = 1 + sum of (1 << (count+1))`. -/
def texCountInt (tc : Nat) : Nat :=
  (List.range tc).foldl (fun a c => a + 2 ^ (c + 1)) 1

/-- `write_materials` (nn.py): write each material body (recording its
offset), then the per-material struct records (`'>2H'` plus the
relocatable body offset), and end 4-byte aligned.  Returns the
`material_structs_offset` global. -/
def write_materials_2 (f32 : ℚ → List Nat) (f : WFile) (mats : List BMaterial)
    (gno : GNOTable) : Except PyErr (WFile × GNOTable × Nat) := do
  let (f, offs) := mats.foldl (fun (p : WFile × List Nat) mat =>
      (p.1.writeRaw (matBody f32 mat), p.2 ++ [p.1.pos])) (f, [])
  let mso := f.pos
  let (f, gno) ← (mats.zip offs).foldlM (fun (fg : WFile × GNOTable) mo => do
      let f ← fg.1.write_short (texCountInt mo.1.texture_count)
      let f ← f.write_short 0xFFFF
      f.write_int_NOF0 mo.2 fg.2) (f, gno)
  .ok (f.write_8bit_aligned, gno, mso)

/-- `write_vertices` (nn.py): three floats per vertex; returns the count. -/
def write_vertices_2 (f32 : ℚ → List Nat) (f : WFile) (verts : List (ℚ × ℚ × ℚ)) :
    WFile × Nat :=
  (verts.foldl (fun f v =>
    ((f.writeRaw (f32 v.1)).writeRaw (f32 v.2.1)).writeRaw (f32 v.2.2)) f,
   verts.length)

/-- `calculate_NGTL_header_size`. -/
def calculate_NGTL_header_size (current : Nat) (names : List (List Nat)) : Nat :=
  let stringTable := names.foldl (fun a n => a + n.length + 1) 0
  (current + stringTable + 0x8 + 31) / 32 * 32

/-- `write_NGTL`: the 20-byte texture records (with the relocatable name
offsets), the count and relocatable 0x10, the NUL-terminated names, then
32-byte alignment. -/
def write_NGTL (f : WFile) (names : List (List Nat)) (offs : List Nat)
    (gno : GNOTable) : Except PyErr (WFile × GNOTable) := do
  let (f, gno) ← offs.foldlM (fun (fg : WFile × GNOTable) off => do
      let f := fg.1.writeRaw [0, 0, 0, 0]
      let (f, gno) ← f.write_int_NOF0 off fg.2
      pure (f.writeRaw (be4 0x00050001 ++ List.replicate 8 0), gno)) (f, gno)
  let f ← f.write_int names.length
  let (f, gno) ← f.write_int_NOF0 0x10 gno
  let f := names.foldl (fun f n => f.writeRaw (n ++ [0])) f
  pure (f.write_32bit_aligned, gno)

/-- The `VertexSetInfo` dataclass. -/
structure VertexSetInfoR where
  info_offset : Nat
  vertices_offset : Nat
  vertices_count : Nat
  normals_offset : Nat := 0
  normals_count : Nat := 0
  uvs_offset : Nat := 0
  uvs_count : Nat := 0
  weights_offset : Nat := 0
  weights_count : Nat := 0
deriving DecidableEq, Repr, Inhabited

/-- One 8-byte slot of `write_vertex_struct`: tag and count as signed
shorts plus the relocatable buffer offset when the offset is truthy,
8 zero bytes otherwise. -/
def writeVSlot (fg : WFile × GNOTable) (tag : Int) (off count : Nat) :
    Except PyErr (WFile × GNOTable) :=
  if off ≠ 0 then do
    let f ← fg.1.write_signed_short tag
    let f ← f.write_signed_short count
    f.write_int_NOF0 off fg.2
  else .ok (fg.1.writeRaw (List.replicate 8 0), fg.2)

/-- `write_vertex_struct` (closure in `write_new_gno_file_2`). -/
def write_vertex_struct (f : WFile) (info : VertexSetInfoR) (gno : GNOTable) :
    Except PyErr (WFile × GNOTable) := do
  let fg ← writeVSlot (f, gno) 0x1 info.vertices_offset info.vertices_count
  let fg ← writeVSlot fg 0x3 info.normals_offset info.normals_count
  let fg := (fg.1.writeRaw (List.replicate 8 0), fg.2)
  let fg ← writeVSlot fg 0x2 info.uvs_offset info.uvs_count
  let fg := (fg.1.writeRaw (List.replicate 8 0), fg.2)
  let fg ← writeVSlot fg 0x1 info.weights_offset info.weights_count
  .ok (fg.1.writeRaw (List.replicate 8 0), fg.2)

/-- The recorded raw buffer offsets and counts of one vertex-set buffer
block. -/
structure BufOffsets where
  vOff : Nat
  vCount : Nat
  nOff : Nat := 0
  nCount : Nat := 0
  uOff : Nat := 0
  uCount : Nat := 0
  wOff : Nat := 0
  wCount : Nat := 0
deriving DecidableEq, Repr, Inhabited

/-- The vertex-set-1 buffer block of `write_new_gno_file_2` (vertices,
normals, uvs; each block 4-byte aligned afterwards, its start recorded
before).  Also collects the per-mesh uv index lists
(`gno.vertex_set_1_uv_indices`). -/
def set1Buffers (f32 : ℚ → List Nat) (f : WFile) (ms : List BMesh) :
    Except PyErr (WFile × BufOffsets × List (List Nat)) := do
  let vOff := f.pos
  let (f, vCount) := ms.foldl (fun (p : WFile × Nat) m =>
      let r := write_vertices_2 f32 p.1 m.verts
      (r.1, p.2 + r.2)) (f, 0)
  let f := f.write_8bit_aligned
  let nOff := f.pos
  let (f, nCount) ← ms.foldlM (fun (p : WFile × Nat) m => do
      let r ← write_normals p.1 m.normals
      pure (r.1, p.2 + r.2)) (f, 0)
  let f := f.write_8bit_aligned
  let uOff := f.pos
  let (f, uCount, uvIdx) ← ms.foldlM
    (fun (p : WFile × Nat × List (List Nat)) m => do
      match m.uvData with
      | none => .error .typeError   -- unpacking the `False` return
      | some uvd => do
        let r ← write_uvs p.1 uvd.1
        pure (r.1, p.2.1 + r.2, p.2.2 ++ [uvd.2])) (f, 0, [])
  let f := f.write_8bit_aligned
  .ok (f, { vOff, vCount, nOff, nCount, uOff, uCount }, uvIdx)

/-- The vertex-set-2 buffer block (vertices and normals only). -/
def set2Buffers (f32 : ℚ → List Nat) (f : WFile) (ms : List BMesh) :
    Except PyErr (WFile × BufOffsets) := do
  let vOff := f.pos
  let (f, vCount) := ms.foldl (fun (p : WFile × Nat) m =>
      let r := write_vertices_2 f32 p.1 m.verts
      (r.1, p.2 + r.2)) (f, 0)
  let f := f.write_8bit_aligned
  let nOff := f.pos
  let (f, nCount) ← ms.foldlM (fun (p : WFile × Nat) m => do
      let r ← write_normals p.1 m.normals
      pure (r.1, p.2 + r.2)) (f, 0)
  let f := f.write_8bit_aligned
  .ok (f, { vOff, vCount, nOff, nCount })

/-- The vertex-set-3 buffer block (vertices, normals, uvs, then the
weight records; `weights_count` is set to the vertex count). -/
def set3Buffers (f32 : ℚ → List Nat) (f : WFile) (ms : List BMesh)
    (weights : List ℚ) (bones : List (List Int)) :
    Except PyErr (WFile × BufOffsets × List (List Nat)) := do
  let (f, b, uvIdx) ← set1Buffers f32 f ms
  let wOff := f.pos
  let f ← write_vertex_weights f weights bones
  .ok (f, { b with wOff, wCount := b.vCount }, uvIdx)

/-- One mesh-set record block: per mesh the bounds floats, the constant
bone id 0x46, the bone group (signed for the weighted set 3), material,
vertex-set and face indices.  Returns the advanced face index. -/
def writeMeshSetRecords (f32 : ℚ → List Nat) (f : WFile) (ms : List BMesh)
    (vertexIndex faceIndex : Nat) (signedBoneGroup : Bool) :
    Except PyErr (WFile × Nat) :=
  ms.foldlM (fun (p : WFile × Nat) m => do
    let f := ((p.1.writeRaw (f32 m.boundsPos.1)).writeRaw
      (f32 m.boundsPos.2.1)).writeRaw (f32 m.boundsPos.2.2)
    let f := f.writeRaw (f32 m.boundsScale)
    let f ← f.write_int 0x46
    let f ← if signedBoneGroup then f.write_signed_int m.boneGroup
      else f.write_int m.boneGroup
    let f ← f.write_int m.matIndex
    let f ← f.write_int vertexIndex
    let f ← f.write_int p.2
    pure (f, p.2 + 1)) (f, faceIndex)

/-- `write_NFN0_header` (nn.py): 32-byte alignment, then the NFN0 chunk
with the blend-derived `.gno` filename.  Returns the chunk start. -/
def write_NFN0_header_2 (f : WFile) (blendName : List Nat) : WFile × Nat :=
  let f := f.write_32bit_aligned
  let start := f.pos
  -- 'untitled.blend'
  let filename := if blendName.isEmpty then
      [117, 110, 116, 105, 116, 108, 101, 100, 46, 98, 108, 101, 110, 100]
    else blendName
  -- `filename[:-5]` then `+= 'gno'`
  let filename := filename.take (filename.length - 5) ++ [103, 110, 111]
  let header_size := (filename.length + 0x11 + 31) / 32 * 32
  let f := f.writeRaw ([78, 70, 78, 48] ++ le4 (header_size - 0x8) ++
    List.replicate 8 0)
  (f.writeRaw (filename ++ [0]), start)

/-- `write_NEND_header` (nn.py).  Returns the chunk start. -/
def write_NEND_header_2 (f : WFile) : WFile × Nat :=
  let f := f.write_32bit_aligned
  let start := f.pos
  let f := f.writeRaw ([78, 69, 78, 68] ++ le4 0x8)
  (f.write_32bit_aligned, start)

/-- The host-supplied inputs of `write_new_gno_file_2`: the keyword flag,
the `get_all_materials` outputs, the external bone blob, the categorized
mesh sets, the `get_weight_painted_meshes` outputs and the blend file
basename. -/
structure GnoInput where
  includeTextureList : Bool
  textureNames : List (List Nat)
  materials : List BMaterial
  boneData : List Nat
  set1 : List BMesh
  set2 : List BMesh
  set3 : List BMesh
  weights : List ℚ
  bones : List (List Int)
  blendName : List Nat
deriving DecidableEq, Repr, Inhabited

/-- The values `write_new_gno_file_2` returns to `write_model`. -/
structure GnoResult where
  NGOB_header_offset : Nat
  offset_to_NOF0 : Nat
  NGOB_size : Nat
  main_object_data_offset : Nat
deriving DecidableEq, Repr, Inhabited

/-- Instrumentation of the pipeline: the positions at which chunks begin
and at which the raw vertex/normal/uv buffer blocks begin. -/
structure GnoTrace where
  chunkStarts : List Nat
  bufferStarts : List Nat
deriving DecidableEq, Repr, Inhabited

/-- The texture-list branch of `write_new_gno_file_2`: with
`include_texture_list` set, the NGTL header and chunk are written;
otherwise the output is untouched. -/
def ngtlBranch (inp : GnoInput) (output : WFile) (gno : GNOTable) :
    Except PyErr (WFile × GNOTable) :=
  let texture_count := inp.textureNames.length
  let offTexCount := texture_count * 0x14 + 0x10
  let header_size := calculate_NGTL_header_size offTexCount inp.textureNames
  let header := [78, 71, 84, 76] ++ le4 (header_size - 0x8) ++
    be4 offTexCount ++ [0, 0, 0, 0]
  let stringOffs := (inp.textureNames.foldl
    (fun (p : List Nat × Nat) n => (p.1 ++ [p.2], p.2 + n.length + 1))
    ([], offTexCount + 0x8)).1
  if inp.includeTextureList then do
    let f := output.writeRaw header
    write_NGTL f inp.textureNames stringOffs gno
  else pure (output, gno)

/-- The conditional vertex-set-1 raw buffer block. -/
def bufBranch1 (f32 : ℚ → List Nat) (f : WFile) (ms : List BMesh) :
    Except PyErr (WFile × Option BufOffsets × List (List Nat)) :=
  if !ms.isEmpty then do
    let r ← set1Buffers f32 f ms
    pure (r.1, some r.2.1, r.2.2)
  else pure (f, none, [])

/-- The conditional vertex-set-2 raw buffer block. -/
def bufBranch2 (f32 : ℚ → List Nat) (f : WFile) (ms : List BMesh) :
    Except PyErr (WFile × Option BufOffsets) :=
  if !ms.isEmpty then do
    let r ← set2Buffers f32 f ms
    pure (r.1, some r.2)
  else pure (f, none)

/-- The conditional vertex-set-3 raw buffer block. -/
def bufBranch3 (f32 : ℚ → List Nat) (f : WFile) (ms : List BMesh)
    (weights : List ℚ) (bones : List (List Int)) :
    Except PyErr (WFile × Option BufOffsets × List (List Nat)) :=
  if !ms.isEmpty then do
    let r ← set3Buffers f32 f ms weights bones
    pure (r.1, some r.2.1, r.2.2)
  else pure (f, none, [])

/-- The vertex-set-1 descriptor struct, when the set exists. -/
def infoBranch1 (f : WFile) (b? : Option BufOffsets) (gno : GNOTable) :
    Except PyErr (WFile × GNOTable × Option VertexSetInfoR) :=
  match b? with
  | some b => do
    let info : VertexSetInfoR := {
      info_offset := f.pos, vertices_offset := b.vOff, vertices_count := b.vCount,
      normals_offset := b.nOff, normals_count := b.nCount,
      uvs_offset := b.uOff, uvs_count := b.uCount }
    let (f, gno) ← write_vertex_struct f info gno
    pure (f, gno, some info)
  | none => pure (f, gno, none)

/-- The vertex-set-2 descriptor struct, when the set exists. -/
def infoBranch2 (f : WFile) (b? : Option BufOffsets) (gno : GNOTable) :
    Except PyErr (WFile × GNOTable × Option VertexSetInfoR) :=
  match b? with
  | some b => do
    let info : VertexSetInfoR := {
      info_offset := f.pos, vertices_offset := b.vOff, vertices_count := b.vCount,
      normals_offset := b.nOff, normals_count := b.nCount }
    let (f, gno) ← write_vertex_struct f info gno
    pure (f, gno, some info)
  | none => pure (f, gno, none)

/-- The vertex-set-3 descriptor struct, when the set exists. -/
def infoBranch3 (f : WFile) (b? : Option BufOffsets) (gno : GNOTable) :
    Except PyErr (WFile × GNOTable × Option VertexSetInfoR) :=
  match b? with
  | some b => do
    let info : VertexSetInfoR := {
      info_offset := f.pos, vertices_offset := b.vOff, vertices_count := b.vCount,
      normals_offset := b.nOff, normals_count := b.nCount,
      uvs_offset := b.uOff, uvs_count := b.uCount,
      weights_offset := b.wOff, weights_count := b.wCount }
    let (f, gno) ← write_vertex_struct f info gno
    pure (f, gno, some info)
  | none => pure (f, gno, none)

/-- One conditional face-blob block of `write_new_gno_file_2`. -/
def faceBranch (f : WFile) (flags : Nat) (ms : List BMesh)
    (muv : Option (List (List Nat))) : Except PyErr (WFile × List FaceInfoR) :=
  if !ms.isEmpty then write_mesh_faces f flags ms muv
  else pure (f, [])

/-- One conditional mesh-set record block: its `(start, tag, count)`
summary is appended and the face and vertex-set indices advance. -/
def meshSetBranch (f32 : ℚ → List Nat) (f : WFile) (ms : List BMesh)
    (msInfo : List (Nat × Nat × Nat)) (faceindex vertex_index tag : Nat)
    (signedBoneGroup : Bool) :
    Except PyErr (WFile × List (Nat × Nat × Nat) × Nat × Nat) :=
  if !ms.isEmpty then do
    let start := f.pos
    let (f, fi) ← writeMeshSetRecords f32 f ms vertex_index faceindex
      signedBoneGroup
    pure (f, msInfo ++ [(start, tag, ms.length)], fi, vertex_index + 1)
  else pure (f, msInfo, faceindex, vertex_index)

/-- The recorded buffer starts of one optional three-buffer vertex-set
block (vertices, normals, uvs). -/
def bufStarts3 : Option BufOffsets → List Nat
  | some b => [b.vOff, b.nOff, b.uOff]
  | none => []

/-- The recorded buffer starts of one optional two-buffer vertex-set
block (vertices and normals). -/
def bufStarts2 : Option BufOffsets → List Nat
  | some b => [b.vOff, b.nOff]
  | none => []

/-- `write_new_gno_file_2` (nn.py line 1112), over the abstracted host
inputs; `f32` is the IEEE-754 binary32 encoder used by `write_float`
(kept abstract; only its 4-byte width matters to the framing). -/
def write_new_gno_file_2 (f32 : ℚ → List Nat) (inp : GnoInput) (output : WFile) :
    Except PyErr (WFile × GNOTable × GnoResult × GnoTrace) := do
  let gno : GNOTable := ⟨[]⟩
  -- NGTL
  let (f, gno) ← ngtlBranch inp output gno
  let ngtlStarts := if inp.includeTextureList then [output.pos] else []
  -- placeholder NGOB header, bone blob, materials
  let NGOB_header_offset := f.pos
  let f := f.writeRaw ([78, 71, 79, 66] ++ List.replicate 12 0)
  let bone_offset := f.pos
  let f := f.writeRaw inp.boneData
  let (f, gno, material_structs_offset) ← write_materials_2 f32 f inp.materials gno
  -- raw buffer blocks
  let (f, b1?, uvIdx1) ← bufBranch1 f32 f inp.set1
  let (f, b2?) ← bufBranch2 f32 f inp.set2
  let (f, b3?, uvIdx3) ← bufBranch3 f32 f inp.set3 inp.weights inp.bones
  -- vertex-set descriptor structs
  let (f, gno, info1?) ← infoBranch1 f b1? gno
  let (f, gno, info2?) ← infoBranch2 f b2? gno
  let (f, gno, info3?) ← infoBranch3 f b3? gno
  let offset_to_vertex_sets_offset := f.pos
  let (f, gno) ← [info1?, info2?, info3?].foldlM
    (fun (fg : WFile × GNOTable) info? => do
      match info? with
      | some info => do
        let f ← fg.1.write_int 0x1
        f.write_int_NOF0 info.info_offset fg.2
      | none => pure fg) (f, gno)
  -- face blobs
  let (f, fi1) ← faceBranch f 0x00C9002A inp.set1 (some uvIdx1)
  let (f, fi2) ← faceBranch f 0x0009000A inp.set2 none
  let (f, fi3) ← faceBranch f 0x1085000A inp.set3 (some uvIdx3)
  let facedata := fi1 ++ fi2 ++ fi3
  -- face info structs
  let (f, gno, face_struct_offs) ← facedata.foldlM
    (fun (acc : WFile × GNOTable × List Nat) face => do
      let off := acc.1.pos
      let f ← acc.1.write_int face.flags
      let (f, gno) ← f.write_int_NOF0 face.offset acc.2.1
      let f ← f.write_int face.size
      let f ← f.write_int 0
      pure (f, gno, acc.2.2 ++ [off])) (f, gno, [])
  let face_info_offset := f.pos
  let (f, gno) ← face_struct_offs.foldlM (fun (fg : WFile × GNOTable) off => do
      let f ← fg.1.write_int 0x4
      f.write_int_NOF0 off fg.2) (f, gno)
  -- mesh-set records
  let (f, msInfo, faceindex, vertex_index) ←
    meshSetBranch f32 f inp.set1 [] 0 0 0x101 false
  let (f, msInfo, faceindex, vertex_index) ←
    meshSetBranch f32 f inp.set2 msInfo faceindex vertex_index 0x102 false
  let (f, msInfo, _faceindex, vertex_index) ←
    meshSetBranch f32 f inp.set3 msInfo faceindex vertex_index 0x201 true
  let mesh_set_info_offset := f.pos
  let (f, gno) ← msInfo.foldlM (fun (fg : WFile × GNOTable) info => do
      let f ← fg.1.write_int info.2.1
      let f ← f.write_int info.2.2
      let (f, gno) ← f.write_int_NOF0 info.1 fg.2
      pure (f.writeRaw (List.replicate 8 0), gno)) (f, gno)
  -- object summary record (default_bounds then the counts and offsets)
  let main_object_data_offset := f.pos
  let f := ((f.writeRaw (f32 (119209 / 1000000000000))).writeRaw
    (f32 (45939 / 100000))).writeRaw (f32 0)
  let f := f.writeRaw (f32 (947298 / 1000000))
  let f ← f.write_int inp.materials.length
  let (f, gno) ← f.write_int_NOF0 material_structs_offset gno
  let f ← f.write_int vertex_index
  let (f, gno) ← f.write_int_NOF0 offset_to_vertex_sets_offset gno
  let f ← f.write_int face_struct_offs.length
  let (f, gno) ← f.write_int_NOF0 face_info_offset gno
  let f ← f.write_int (inp.boneData.length / 0x80)
  let f ← f.write_int 0xC
  let (f, gno) ← f.write_int_NOF0 bone_offset gno
  let f ← f.write_int 0x24
  let f ← f.write_int msInfo.length
  let (f, gno) ← f.write_int_NOF0 mesh_set_info_offset gno
  let f ← f.write_int 0x4
  -- trailing chunks
  let f := f.write_32bit_aligned
  let offset_to_NOF0 := f.pos
  let f ← write_NOF0_header f gno
  let (f, nfn0Start) := write_NFN0_header_2 f inp.blendName
  let (f, nendStart) := write_NEND_header_2 f
  let NGOB_size := offset_to_NOF0 - NGOB_header_offset
  let bufferStarts := bufStarts3 b1? ++ bufStarts2 b2? ++ bufStarts3 b3?
  .ok (f, gno,
    ⟨NGOB_header_offset, offset_to_NOF0, NGOB_size, main_object_data_offset⟩,
    ⟨ngtlStarts ++ [NGOB_header_offset, offset_to_NOF0, nfn0Start, nendStart],
     bufferStarts⟩)

/-! ### The object-header patch pass (`__init__.py` `write_model`) -/

/-- The second pass of `write_model`: seek to `NGOB_header_offset + 0x4`
and overwrite 8 bytes, the 4-byte little-endian `NGOB_size - 0x8`
followed by the 4-byte big-endian `main_object_data_offset`. -/
def patchNGOB (content : List Nat) (hdrOff ngobSize objOff : Nat) : List Nat :=
  writeAtData content (hdrOff + 4) (le4 (ngobSize - 0x8) ++ be4 objOff)

/-- `generate_NGIF_header` (nn.py): the 32-byte info header prepended by
the final pass of `write_model` ('NGIF' = bytes 78, 71, 73, 70). -/
def generate_NGIF_header (offsetToNOF0 ngobIndex : Nat) : List Nat :=
  let data := be4 ngobIndex ++ be4 0x20 ++ be4 (offsetToNOF0 - 0x20) ++
    be4 offsetToNOF0 ++ be4 0x1C0 ++ be4 0x1
  [78, 71, 73, 70] ++ le4 data.length ++ data

/-! ### Auxiliary definitions for the claim statements -/

/-- Pairwise equal lengths of two lists of strips. -/
def lensEq (xs ys : List (List Nat)) : Prop :=
  List.Forall₂ (fun a b => a.length = b.length) xs ys

/-- A uv list that, when supplied, provides a chunk for every triangle of
the index list (so mesh construction cannot fail on a missing uv chunk
before reaching a later triangle). -/
def uvCoversTris (ixs : List Nat) : Option (List Nat) → Prop
  | none => True
  | some l => l = [] ∨ 3 * (ixs.length / 3) ≤ l.length

/-- A concrete stand-in for the IEEE-754 binary32 encoder (any 4-byte
encoder satisfies the framing theorems; this one is used to instantiate
them). -/
def f32c : ℚ → List Nat := fun _ => [0, 0, 0, 0]

/-- The empty export: no texture list, no materials, no meshes, no bone
blob. -/
def emptyGnoInput : GnoInput :=
  { includeTextureList := false, textureNames := [], materials := [],
    boneData := [], set1 := [], set2 := [], set3 := [], weights := [],
    bones := [], blendName := [] }

/-- The output of `write_new_gno_file_2` on the empty export (extracted
by evaluation; the run succeeds, so the default is never used). -/
def emptyGnoOut : WFile × GNOTable × GnoResult × GnoTrace :=
  (write_new_gno_file_2 f32c emptyGnoInput ⟨[], 0, true⟩).toOption.getD default

/-! ## Helper lemmas -/

theorem writeRaw_pos (f : WFile) (bs : List Nat) :
    (f.writeRaw bs).pos = f.pos + bs.length := rfl

theorem writeRaw_endian (f : WFile) (bs : List Nat) :
    (f.writeRaw bs).endianBig = f.endianBig := rfl

theorem writeRaw_data_append (f : WFile) (bs : List Nat)
    (h : f.pos = f.data.length) : (f.writeRaw bs).data = f.data ++ bs := by
  simp only [WFile.writeRaw, h]
  rw [if_neg (by omega)]
  rw [List.take_of_length_le (by omega), List.drop_eq_nil_of_le (by omega)]
  simp

theorem writeRaw_atEnd (f : WFile) (bs : List Nat) (h : f.pos = f.data.length) :
    (f.writeRaw bs).pos = (f.writeRaw bs).data.length := by
  rw [writeRaw_pos, writeRaw_data_append f bs h, List.length_append, h]

theorem alignLoop4_pos : ∀ (k : Nat) (f : WFile), (4 - f.pos % 4) % 4 ≤ k →
    (WFile.alignLoop 4 k f).pos % 4 = 0 := by
  intro k
  induction k with
  | zero => intro f hf; simp only [WFile.alignLoop]; omega
  | succ k ih =>
    intro f hf
    rw [WFile.alignLoop]
    split
    next hne =>
      refine ih (f.writeRaw [0]) ?_
      have h1 : (f.writeRaw [0]).pos = f.pos + 1 := rfl
      rw [h1]; omega
    next hne => omega

theorem alignLoop32_pos : ∀ (k : Nat) (f : WFile), (32 - f.pos % 32) % 32 ≤ k →
    (WFile.alignLoop 32 k f).pos % 32 = 0 := by
  intro k
  induction k with
  | zero => intro f hf; simp only [WFile.alignLoop]; omega
  | succ k ih =>
    intro f hf
    rw [WFile.alignLoop]
    split
    next hne =>
      refine ih (f.writeRaw [0]) ?_
      have h1 : (f.writeRaw [0]).pos = f.pos + 1 := rfl
      rw [h1]; omega
    next hne => omega

theorem align4_pos (f : WFile) : f.write_8bit_aligned.pos % 4 = 0 :=
  alignLoop4_pos 4 f (by omega)

theorem align32_pos (f : WFile) : f.write_32bit_aligned.pos % 32 = 0 :=
  alignLoop32_pos 32 f (by omega)

theorem alignLoop_append (n : Nat) :
    ∀ (k : Nat) (f : WFile), f.pos = f.data.length →
      ∃ j, (WFile.alignLoop n k f).data = f.data ++ List.replicate j 0 ∧
        (WFile.alignLoop n k f).pos = (WFile.alignLoop n k f).data.length := by
  intro k
  induction k with
  | zero => intro f hf; exact ⟨0, by simp [WFile.alignLoop], by simpa [WFile.alignLoop] using hf⟩
  | succ k ih =>
    intro f hf
    rw [WFile.alignLoop]
    split
    · obtain ⟨j, hj, hp⟩ := ih (f.writeRaw [0]) (writeRaw_atEnd f [0] hf)
      refine ⟨j + 1, ?_, hp⟩
      rw [hj, writeRaw_data_append f [0] hf]
      simp [List.replicate_succ]
    · exact ⟨0, by simp, by simpa using hf⟩

theorem align4_append (f : WFile) (h : f.pos = f.data.length) :
    ∃ k, f.write_8bit_aligned.data = f.data ++ List.replicate k 0 ∧
      f.write_8bit_aligned.pos = f.write_8bit_aligned.data.length :=
  alignLoop_append 4 4 f h

theorem align32_append (f : WFile) (h : f.pos = f.data.length) :
    ∃ k, f.write_32bit_aligned.data = f.data ++ List.replicate k 0 ∧
      f.write_32bit_aligned.pos = f.write_32bit_aligned.data.length :=
  alignLoop_append 32 32 f h

/-! ## Claim theorems -/

open Stripify

/-- C1.  The coverage invariant is the documented intent ("Every Triangle
is consumed into exactly one Strip"), but the code violates it: on the
topologically valid triangle list `ringIxs` (a manifold closed band,
length a positive multiple of 3, every edge on at most 2 triangles) the
single reversal attempt executes `self.uv_strip.reverse()` although no uv
list was supplied and `uv_strip` was never assigned, so `Strippify`
raises AttributeError and returns no strips at all — the input's
triangles are covered by no strip. -/
theorem C1_coverage_crash :
    ringIxs.length % 3 = 0 ∧ ringIxs ≠ [] ∧ manifoldOK ringIxs = true ∧
    Strippify ringIxs none false false false 100 = .error .attributeError :=
  ⟨by decide, by decide, by decide, rfl⟩

/-- C2 (counterexample).  On `[0,1,2, 0,2,3]` with no uv list,
`Strippify` returns exactly one strip, but its vertex sequence is
`[1,0,2,3]` — neither the claimed `[0,1,2,3]` nor its reversal
`[3,2,1,0]`. -/
theorem C2_counterexample :
    Strippify squareIxs none false false false 100 =
      .ok ⟨[[1, 0, 2, 3]], [[1, 0, 2, 3]], none⟩ ∧
    ([[1, 0, 2, 3]] : List (List Nat)) ≠ [[0, 1, 2, 3]] ∧
    ([[1, 0, 2, 3]] : List (List Nat)) ≠ [[3, 2, 1, 0]] :=
  ⟨rfl, by decide, by decide⟩

/-- C2 (amended).  `Strippify [0,1,2, 0,2,3]` with no uv list yields
exactly one strip, whose vertex-index sequence is `[1,0,2,3]` (the third
vertex of the first triangle leads; the sequence decodes to the two input
triangles).  The normal sequence equals it and no uv sequence is
returned. -/
theorem C2_single_strip :
    Strippify squareIxs none false false false 100 =
      .ok ⟨[[1, 0, 2, 3]], [[1, 0, 2, 3]], none⟩ := rfl

/-- C3 (counterexample).  On the closed band `ringIxs` with uv list
`0..23` the strip is completed through the single reversal attempt, which
reverses the vertex and uv sequences but not the normal sequence
(strippifier.py lines 523-524 reverse `strip` and `uv_strip` only).
Since every vertex's `normal_index` equals its vertex index, positional
parallelism would force the normal sequence to equal the vertex
sequence; instead it is its pre-reversal image, and the two differ. -/
theorem C3_counterexample :
    Strippify ringIxs (some ringUv) false false false 100 =
      .ok ⟨[[3, 3, 6, 2, 5, 1, 4, 0, 7, 3, 6]],
           [[0, 0, 4, 1, 5, 2, 6, 3, 7, 3, 6]],
           some [[13, 13, 11, 8, 5, 2, 1, 0, 22, 18, 16]]⟩ ∧
    ([[3, 3, 6, 2, 5, 1, 4, 0, 7, 3, 6]] : List (List Nat)) ≠
      [[0, 0, 4, 1, 5, 2, 6, 3, 7, 3, 6]] ∧
    manifoldOK ringIxs = true :=
  ⟨rfl, by decide, by decide⟩

/-- C4 (counterexample).  The entry point's default is
`raiseTopoError=False` (and `Strippify` resets the module flag to that
default before building the mesh), so on `tripleIxs` — whose edge {0,1}
lies on three triangles — the default call raises nothing and returns
strips. -/
theorem C4_counterexample :
    hasTripleEdge tripleIxs = true ∧
    Strippify tripleIxs none false false false 100 =
      .ok ⟨[[2, 1, 0, 3], [0, 4, 1]], [[2, 1, 0, 3], [0, 4, 1]], none⟩ :=
  ⟨by decide, rfl⟩

/-- C9.  There is a topologically valid triangle list (length a positive
multiple of 3, no edge on more than two triangles) on which `Strippify`
with no uv list raises AttributeError: when the strip dead-ends while the
pass's first triangle still has an unused neighbour, the reversal attempt
calls `self.uv_strip.reverse()`, and `uv_strip` is only ever assigned
when a uv list was supplied. -/
theorem C9_reversal_attribute_error :
    ∃ ixs : List Nat, ixs.length % 3 = 0 ∧ ixs ≠ [] ∧ manifoldOK ixs = true ∧
      Strippify ixs none false false false 100 = .error .attributeError :=
  ⟨ringIxs, by decide, by decide, by decide, rfl⟩

theorem writeRaw2_append (f : WFile) (a b : List Nat) (h : f.pos = f.data.length) :
    ((f.writeRaw a).writeRaw b).data = f.data ++ (a ++ b) ∧
    ((f.writeRaw a).writeRaw b).pos = ((f.writeRaw a).writeRaw b).data.length := by
  have h1 := writeRaw_atEnd f a h
  exact ⟨by rw [writeRaw_data_append _ b h1, writeRaw_data_append f a h,
    List.append_assoc], writeRaw_atEnd _ b h1⟩

theorem writeRaw3_append (f : WFile) (a b c : List Nat) (h : f.pos = f.data.length) :
    (((f.writeRaw a).writeRaw b).writeRaw c).data = f.data ++ (a ++ b ++ c) := by
  obtain ⟨h2, hp⟩ := writeRaw2_append f a b h
  rw [writeRaw_data_append _ c hp, h2]
  simp [List.append_assoc]

theorem pyRound_intCast (n : ℤ) : pyRound ((n : ℚ)) = n := by
  simp only [pyRound, Int.floor_intCast, sub_self]
  norm_num

theorem pyRound_zero_mul : pyRound ((0 : ℚ) * 64) = 0 := by
  have h : ((0 : ℚ) * 64) = ((0 : ℤ) : ℚ) := by norm_num
  rw [h, pyRound_intCast]

theorem pyRound_one_mul : pyRound ((1 : ℚ) * 64) = 64 := by
  have h : ((1 : ℚ) * 64) = ((64 : ℤ) : ℚ) := by norm_num
  rw [h, pyRound_intCast]

theorem pyRound_half_u : pyRound ((1 / 2 : ℚ) * 256) = 128 := by
  have h : ((1 / 2 : ℚ) * 256) = ((128 : ℤ) : ℚ) := by norm_num
  rw [h, pyRound_intCast]

theorem pyRound_half_v : pyRound (-((1 / 2 : ℚ) - 1) * 256) = 128 := by
  have h : (-((1 / 2 : ℚ) - 1) * 256) = ((128 : ℤ) : ℚ) := by norm_num
  rw [h, pyRound_intCast]

/-- C5.  `write_normals` encodes each normal component `p` as
`round(p * 64)` written as one signed byte, and `write_uvs` encodes a uv
pair as `round(u*256)` and `round(-(v-1)*256)` written as signed 16-bit
(big-endian) integers: at the end of any big-endian file the normal
(0,0,1) appends exactly the bytes 0, 0, 64, and the uv pair (1/2, 1/2)
appends the two 16-bit values 128, 128 (bytes 0,128,0,128). -/
theorem C5_quantization (f : WFile) (hpos : f.pos = f.data.length)
    (hend : f.endianBig = true) :
    (∃ f', write_normals f [(0, 0, 1)] = .ok (f', 1) ∧
      f'.data = f.data ++ [0, 0, 64]) ∧
    (∃ f', write_uvs f [(1 / 2, 1 / 2)] = .ok (f', 1) ∧
      f'.data = f.data ++ [0, 128, 0, 128]) ∧
    pyRound ((0 : ℚ) * 64) = 0 ∧ pyRound ((1 : ℚ) * 64) = 64 ∧
    pyRound ((1 / 2 : ℚ) * 256) = 128 ∧
    pyRound (-((1 / 2 : ℚ) - 1) * 256) = 128 := by
  obtain ⟨d, p, e⟩ := f
  simp only at hpos
  subst hend
  refine ⟨⟨_, ?_, writeRaw3_append ⟨d, p, true⟩ [0] [0] [64] hpos⟩,
    ⟨_, ?_, (writeRaw2_append ⟨d, p, true⟩ [0, 128] [0, 128] hpos).1⟩,
    pyRound_zero_mul, pyRound_one_mul, pyRound_half_u, pyRound_half_v⟩
  · show write_normals ⟨d, p, true⟩ [(0, 0, 1)] =
      .ok (((WFile.writeRaw ⟨d, p, true⟩ [0]).writeRaw [0]).writeRaw [64], 1)
    simp only [write_normals, List.foldlM, pyRound_zero_mul, pyRound_one_mul]
    rfl
  · show write_uvs ⟨d, p, true⟩ [(1 / 2, 1 / 2)] =
      .ok ((WFile.writeRaw ⟨d, p, true⟩ [0, 128]).writeRaw [0, 128], 1)
    simp only [write_uvs, List.foldlM, pyRound_half_u, pyRound_half_v]
    rfl

/-- Witness for C5 at the empty file. -/
theorem C5_quantization_witness :
    (∃ f', write_normals ⟨[], 0, true⟩ [(0, 0, 1)] = .ok (f', 1) ∧
      f'.data = [] ++ [0, 0, 64]) ∧
    (∃ f', write_uvs ⟨[], 0, true⟩ [(1 / 2, 1 / 2)] = .ok (f', 1) ∧
      f'.data = [] ++ [0, 128, 0, 128]) :=
  ⟨(C5_quantization ⟨[], 0, true⟩ rfl rfl).1,
   (C5_quantization ⟨[], 0, true⟩ rfl rfl).2.1⟩

/-- C10.  In `File.read` and `File.write` the offset argument is tested
for truthiness, so `offset=0` behaves exactly like no offset at all (the
operation happens at the current position, with no save and restore of
the position), while any non-zero offset makes the operation act at that
offset and restore the prior position afterwards. -/
theorem C10_offset_truthiness :
    (∀ (data : List Nat) (pos : Nat) (size : Option Nat),
      fileRead data pos size (some 0) = fileRead data pos size none) ∧
    (∀ (data : List Nat) (pos : Nat) (bs : List Nat),
      fileWrite data pos bs (some 0) = fileWrite data pos bs none) ∧
    (∀ (data : List Nat) (pos : Nat) (size : Option Nat) (o : Nat), o ≠ 0 →
      fileRead data pos size (some o) = ((rawRead data o size).1, pos)) ∧
    (∀ (data : List Nat) (pos : Nat) (bs : List Nat) (o : Nat), o ≠ 0 →
      fileWrite data pos bs (some o) = (writeAtData data o bs, pos)) := by
  refine ⟨fun d p s => ?_, fun d p bs => ?_,
    fun d p s o ho => ?_, fun d p bs o ho => ?_⟩
  · simp [fileRead, pyTruthyNat]
  · simp [fileWrite, pyTruthyNat]
  · simp [fileRead, pyTruthyNat, ho]
  · simp [fileWrite, pyTruthyNat, ho]

/-- Witness for C10 at concrete data. -/
theorem C10_offset_truthiness_witness :
    fileRead [7, 8, 9] 1 none (some 2) = (([9] : List Nat), 1) ∧
    fileWrite [7, 8, 9] 0 [5] (some 2) = (([7, 8, 5] : List Nat), 0) := by
  constructor
  · rw [C10_offset_truthiness.2.2.1 [7, 8, 9] 1 none 2 (by decide)]; rfl
  · rw [C10_offset_truthiness.2.2.2 [7, 8, 9] 0 [5] 2 (by decide)]; rfl

theorem writeAtData_in_range (d : List Nat) (p : Nat) (bs : List Nat)
    (h : p + bs.length ≤ d.length) :
    writeAtData d p bs = d.take p ++ bs ++ d.drop (p + bs.length) := by
  unfold writeAtData
  rw [if_neg (by omega)]

theorem take_append_len (A B : List Nat) (n : Nat) (h : A.length = n) :
    (A ++ B).take n = A := by
  subst h; exact List.take_left A B

theorem drop_append_len (A B : List Nat) (n : Nat) (h : A.length = n) :
    (A ++ B).drop n = B := by
  subst h; exact List.drop_left A B

/-- C7.  The patch pass of `write_model` overwrites exactly the 8 bytes
at `NGOB_header_offset + 4` (the 4-byte little-endian size
`NGOB_size - 8` followed by the 4-byte big-endian object-data offset),
leaves every other byte of the stream unchanged, keeps the length, and is
idempotent: patching twice with the same size and offset equals patching
once. -/
theorem C7_patch_pass (c : List Nat) (hdr size off : Nat)
    (h : hdr + 12 ≤ c.length) :
    patchNGOB (patchNGOB c hdr size off) hdr size off = patchNGOB c hdr size off ∧
    (patchNGOB c hdr size off).length = c.length ∧
    (∀ i, i < hdr + 4 ∨ hdr + 12 ≤ i →
      (patchNGOB c hdr size off).get? i = c.get? i) ∧
    ((patchNGOB c hdr size off).drop (hdr + 4)).take 8 =
      le4 (size - 8) ++ be4 off := by
  have hbs : (le4 (size - 8) ++ be4 off).length = 8 := by simp [le4, be4]
  have hidx : hdr + 4 + (le4 (size - 8) ++ be4 off).length = hdr + 12 := by
    rw [hbs]
  have hP : patchNGOB c hdr size off =
      c.take (hdr + 4) ++ (le4 (size - 8) ++ be4 off) ++ c.drop (hdr + 12) := by
    unfold patchNGOB
    rw [writeAtData_in_range c (hdr + 4) _ (by omega), hidx]
  have hA : (c.take (hdr + 4)).length = hdr + 4 := by
    rw [List.length_take]; omega
  have hAB : (c.take (hdr + 4) ++ (le4 (size - 8) ++ be4 off)).length =
      hdr + 12 := by
    rw [List.length_append, hA, hbs]
  have hlen : (patchNGOB c hdr size off).length = c.length := by
    rw [hP, List.length_append, List.length_append, hA, hbs, List.length_drop]
    omega
  refine ⟨?_, hlen, ?_, ?_⟩
  · unfold patchNGOB
    rw [writeAtData_in_range _ (hdr + 4) _ (by rw [hbs]; unfold patchNGOB at hlen; omega),
        writeAtData_in_range c (hdr + 4) _ (by omega), hidx]
    have h1 : (c.take (hdr + 4) ++ (le4 (size - 8) ++ be4 off) ++
        c.drop (hdr + 12)).take (hdr + 4) = c.take (hdr + 4) := by
      rw [List.append_assoc]
      exact take_append_len _ _ _ hA
    have h2 : (c.take (hdr + 4) ++ (le4 (size - 8) ++ be4 off) ++
        c.drop (hdr + 12)).drop (hdr + 12) = c.drop (hdr + 12) :=
      drop_append_len _ _ _ hAB
    rw [h1, h2]
  · intro i hi
    rw [hP]
    simp only [List.get?_eq_getElem?]
    rcases hi with hi | hi
    · rw [List.append_assoc, List.getElem?_append_left (by omega),
        List.getElem?_take_of_lt hi]
    · rw [List.getElem?_append_right (by rw [hAB]; omega), hAB,
        List.getElem?_drop]
      congr 1
      omega
  · rw [hP, List.append_assoc, drop_append_len _ _ _ hA]
    exact take_append_len _ _ 8 hbs

/-- Witness for C7 on the fresh 16-byte placeholder NGOB header. -/
theorem C7_patch_pass_witness :
    (0 : Nat) + 12 ≤
      ([78, 71, 79, 66, 0, 0, 0, 0, 0, 0, 0, 0, 0, 0, 0, 0] : List Nat).length ∧
    patchNGOB (patchNGOB [78, 71, 79, 66, 0, 0, 0, 0, 0, 0, 0, 0, 0, 0, 0, 0]
        0 24 32) 0 24 32 =
      patchNGOB [78, 71, 79, 66, 0, 0, 0, 0, 0, 0, 0, 0, 0, 0, 0, 0] 0 24 32 :=
  ⟨by decide,
   (C7_patch_pass [78, 71, 79, 66, 0, 0, 0, 0, 0, 0, 0, 0, 0, 0, 0, 0]
     0 24 32 (by decide)).1⟩

/-- Binding a writer step whose continuation pairs the file with a fixed
table leaves the table component of a successful result equal to that
fixed table. -/
theorem bindSnd_table (st' : WFile × GNOTable) (g : GNOTable)
    (x : Except PyErr WFile)
    (h : (x >>= fun f => Except.ok (f, g)) = Except.ok st') :
    st'.2 = g := by
  cases x with
  | error e =>
    simp only [Bind.bind, Except.bind] at h
    exact Except.noConfusion h
  | ok f =>
    simp only [Bind.bind, Except.bind] at h
    cases h
    rfl

/-- One successful writer operation appends to the NOF0 table exactly the
position of a relocatable-integer write, and nothing for any other
operation. -/
theorem runOp_table (st st' : WFile × GNOTable) (op : WOp)
    (h : runOp st op = .ok st') :
    st'.2.NOF0_offsets = st.2.NOF0_offsets ++ nof0Delta st.1.pos op := by
  cases op with
  | wRaw bs => simp only [runOp] at h; cases h; simp [nof0Delta]
  | wAlign4 => simp only [runOp] at h; cases h; simp [nof0Delta]
  | wAlign32 => simp only [runOp] at h; cases h; simp [nof0Delta]
  | wSeek p => simp only [runOp] at h; cases h; simp [nof0Delta]
  | wByte v =>
    simp only [runOp] at h
    rw [bindSnd_table st' st.2 _ h]
    simp [nof0Delta]
  | wShort v =>
    simp only [runOp] at h
    rw [bindSnd_table st' st.2 _ h]
    simp [nof0Delta]
  | wInt v =>
    simp only [runOp] at h
    rw [bindSnd_table st' st.2 _ h]
    simp [nof0Delta]
  | wSByte v =>
    simp only [runOp] at h
    rw [bindSnd_table st' st.2 _ h]
    simp [nof0Delta]
  | wSShort v =>
    simp only [runOp] at h
    rw [bindSnd_table st' st.2 _ h]
    simp [nof0Delta]
  | wSInt v =>
    simp only [runOp] at h
    rw [bindSnd_table st' st.2 _ h]
    simp [nof0Delta]
  | wShortList l =>
    simp only [runOp] at h
    rw [bindSnd_table st' st.2 _ h]
    simp [nof0Delta]
  | wIntNOF0 v =>
    simp only [runOp, WFile.write_int_NOF0] at h
    rw [bindSnd_table st' _ _ h]
    simp [nof0Delta, WFile.tell]

/-- Over any successful operation sequence the NOF0 table grows
append-only, by exactly the relocatable-write positions in execution
order. -/
theorem runOps_table (ops : List WOp) : ∀ st st' : WFile × GNOTable,
    runOps st ops = .ok st' →
    st'.2.NOF0_offsets = st.2.NOF0_offsets ++ nof0Positions st ops := by
  induction ops with
  | nil =>
    intro st st' h
    simp only [runOps] at h
    cases h
    simp [nof0Positions]
  | cons op ops ih =>
    intro st st' h
    simp only [runOps] at h
    cases hop : runOp st op with
    | error e =>
      rw [hop] at h
      simp only [Bind.bind, Except.bind] at h
      exact Except.noConfusion h
    | ok st1 =>
      rw [hop] at h
      simp only [Bind.bind, Except.bind] at h
      rw [ih st1 st' h, runOp_table st st1 op hop]
      simp only [nof0Positions, hop]
      rw [List.append_assoc]

/-- C6: `write_int_NOF0` appends the current position (`tell()`) to the
shared NOF0 offset table and writes the 4-byte big-endian encoding of its
argument at that position; consequently, after any successful sequence of
writer operations the table equals its initial contents followed by the
relocatable-write positions in exactly execution order (append-only,
order = write order). -/
theorem C6_nof0_table (f : WFile) (gno : GNOTable) (v : Int)
    (hv1 : 0 <= v) (hv2 : v <= 4294967295) (he : f.endianBig = true)
    (st st' : WFile × GNOTable) (ops : List WOp)
    (h : runOps st ops = .ok st') :
    f.write_int_NOF0 v gno =
      .ok (f.writeRaw (be4 v.toNat), ⟨gno.NOF0_offsets ++ [f.pos]⟩) ∧
    st'.2.NOF0_offsets = st.2.NOF0_offsets ++ nof0Positions st ops := by
  constructor
  · have hp : packCheck 0 4294967295 v = .ok () := by
      unfold packCheck
      rw [if_pos ⟨hv1, hv2⟩]
    simp only [WFile.write_int_NOF0, WFile.write_int, hp, Bind.bind,
      Except.bind, WFile.tell, he, if_true]
  · exact runOps_table ops st st' h

/-- Witness for C6: a concrete three-operation run (relocatable int 7,
plain byte 1, relocatable int 9) whose table comes out as the write
positions 0 and 5 in order. -/
theorem C6_nof0_table_witness :
    (0 : Int) <= 7 ∧ (7 : Int) <= 4294967295 ∧
    ((⟨[], 0, true⟩ : WFile)).endianBig = true ∧
    runOps ((⟨[], 0, true⟩ : WFile), (⟨[]⟩ : GNOTable))
        [.wIntNOF0 7, .wByte 1, .wIntNOF0 9] =
      .ok (⟨[0, 0, 0, 7, 1, 0, 0, 0, 9], 9, true⟩, ⟨[0, 5]⟩) ∧
    ((⟨[0, 0, 0, 7, 1, 0, 0, 0, 9], 9, true⟩ : WFile),
        (⟨[0, 5]⟩ : GNOTable)).2.NOF0_offsets =
      ((⟨[], 0, true⟩ : WFile), (⟨[]⟩ : GNOTable)).2.NOF0_offsets ++
        nof0Positions ((⟨[], 0, true⟩ : WFile), (⟨[]⟩ : GNOTable))
          [.wIntNOF0 7, .wByte 1, .wIntNOF0 9] :=
  ⟨by decide, by decide, rfl, rfl,
   (C6_nof0_table ⟨[], 0, true⟩ ⟨[]⟩ 7 (by decide) (by decide) rfl
     ((⟨[], 0, true⟩ : WFile), (⟨[]⟩ : GNOTable))
     ((⟨[0, 0, 0, 7, 1, 0, 0, 0, 9], 9, true⟩ : WFile), (⟨[0, 5]⟩ : GNOTable))
     [.wIntNOF0 7, .wByte 1, .wIntNOF0 9] rfl).2⟩

/-- A successful `Except` bind factors through a successful first stage. -/
theorem bind_ok_elim {α β : Type} {x : Except PyErr α} {k : α → Except PyErr β}
    {b : β} (h : (x >>= k) = .ok b) : ∃ a, x = .ok a ∧ k a = .ok b := by
  cases x with
  | error e =>
    simp only [Bind.bind, Except.bind] at h
    exact Except.noConfusion h
  | ok a => exact ⟨a, rfl, by simpa only [Bind.bind, Except.bind] using h⟩

/-- A failing `Except` bind fails in the first stage or after it. -/
theorem bind_error_elim {α β : Type} {x : Except PyErr α} {k : α → Except PyErr β}
    {e : PyErr} (h : (x >>= k) = .error e) :
    x = .error e ∨ ∃ a, x = .ok a ∧ k a = .error e := by
  cases x with
  | error e1 =>
    simp only [Bind.bind, Except.bind] at h
    cases h
    exact Or.inl rfl
  | ok a => exact Or.inr ⟨a, rfl, by simpa only [Bind.bind, Except.bind] using h⟩

/-- Elimination for an `ite` of `Except` computations that succeeded:
the branch taken by the condition succeeded. -/
theorem ite_ok_elim {β : Type} {c : Prop} [Decidable c] {f g : Except PyErr β}
    {b : β} (h : (if c then f else g) = .ok b) :
    (c ∧ f = .ok b) ∨ (¬c ∧ g = .ok b) := by
  by_cases hc : c
  · rw [if_pos hc] at h
    exact Or.inl ⟨hc, h⟩
  · rw [if_neg hc] at h
    exact Or.inr ⟨hc, h⟩

/-- `findIdx?` success yields an in-range index whose element satisfies
the predicate. -/
theorem findIdx?_some_spec {α : Type} [Inhabited α] (p : α → Bool) :
    ∀ (l : List α) (i : Nat), l.findIdx? p = some i →
      i < l.length ∧ p (l.getD i default) = true := by
  intro l
  induction l with
  | nil => intro i h; simp [List.findIdx?_nil] at h
  | cons a l ih =>
    intro i h
    rw [List.findIdx?_cons] at h
    by_cases hp : p a
    · rw [if_pos hp] at h
      cases h
      exact ⟨by simp, by simpa using hp⟩
    · rw [if_neg hp, List.findIdx?_succ] at h
      cases hl : l.findIdx? p with
      | none => rw [hl] at h; simp at h
      | some j =>
        rw [hl, Option.map_some'] at h
        cases h
        obtain ⟨hlt, hpj⟩ := ih j hl
        exact ⟨by simp [Nat.succ_lt_succ hlt], by simpa [List.getD_cons_succ] using hpj⟩

/-- `findIdx?` failure means no element satisfies the predicate. -/
theorem findIdx?_none_spec {α : Type} (p : α → Bool) :
    ∀ (l : List α), l.findIdx? p = none → ∀ x ∈ l, p x = false := by
  intro l
  induction l with
  | nil => intro _ x hx; cases hx
  | cons a l ih =>
    intro h x hx
    rw [List.findIdx?_cons] at h
    by_cases hp : p a
    · rw [if_pos hp] at h
      exact Option.noConfusion h
    · rw [if_neg hp, List.findIdx?_succ] at h
      cases hl : l.findIdx? p with
      | some j => rw [hl] at h; simp at h
      | none =>
        cases hx with
        | head => simpa using hp
        | tail _ hx => exact ih hl x hx

/-- Symmetry of unordered-pair matching, truth form. -/
theorem pairMatches_symm (p q : Nat × Nat) :
    pairMatches p q = true ↔ pairMatches q p = true := by
  obtain ⟨p1, p2⟩ := p
  obtain ⟨q1, q2⟩ := q
  simp only [pairMatches, Bool.or_eq_true, Bool.and_eq_true, beq_iff_eq]
  constructor
  · rintro (⟨h1, h2⟩ | ⟨h1, h2⟩)
    · exact Or.inl ⟨h1.symm, h2.symm⟩
    · exact Or.inr ⟨h2.symm, h1.symm⟩
  · rintro (⟨h1, h2⟩ | ⟨h1, h2⟩)
    · exact Or.inl ⟨h1.symm, h2.symm⟩
    · exact Or.inr ⟨h2.symm, h1.symm⟩

/-- A pair matches itself. -/
theorem pairMatches_refl (p : Nat × Nat) : pairMatches p p = true := by
  simp [pairMatches]

/-- Matching pairs match the same partners. -/
theorem pairMatches_compat {p q : Nat × Nat} (h : pairMatches p q = true)
    (r : Nat × Nat) : pairMatches q r = true ↔ pairMatches p r = true := by
  obtain ⟨p1, p2⟩ := p
  obtain ⟨q1, q2⟩ := q
  obtain ⟨r1, r2⟩ := r
  simp only [pairMatches, Bool.or_eq_true, Bool.and_eq_true, beq_iff_eq] at h ⊢
  rcases h with ⟨h1, h2⟩ | ⟨h1, h2⟩ <;> subst h1 <;> subst h2 <;> tauto

/-- Symmetry of unordered-pair matching, falsity form. -/
theorem pairMatches_false_symm {p q : Nat × Nat} (h : pairMatches p q = false) :
    pairMatches q p = false := by
  rw [Bool.eq_false_iff] at h ⊢
  exact fun ht => h ((pairMatches_symm q p).mp ht)

/-- `getD` of `set` at the written index. -/
theorem getD_set_self {α : Type} [Inhabited α] (l : List α) (i : Nat) (x : α)
    (h : i < l.length) : (l.set i x).getD i default = x := by
  simp [List.getD_eq_getElem?_getD, List.getElem?_set_eq_of_lt x h]

/-- `getD` of `set` away from the written index. -/
theorem getD_set_ne {α : Type} [Inhabited α] (l : List α) (i j : Nat) (x : α)
    (h : i ≠ j) : (l.set i x).getD j default = l.getD j default := by
  simp [List.getD_eq_getElem?_getD, List.getElem?_set_ne h]

/-- `getD` of an append inside the left part. -/
theorem getD_append_left {α : Type} [Inhabited α] (l l' : List α) (i : Nat)
    (h : i < l.length) : (l ++ l').getD i default = l.getD i default := by
  simp [List.getD_eq_getElem?_getD, List.getElem?_append_left h]

/-- `getD` of a snoc at the old length. -/
theorem getD_append_last {α : Type} [Inhabited α] (l : List α) (x : α) :
    (l ++ [x]).getD l.length default = x := by
  simp [List.getD_eq_getElem?_getD, List.getElem?_append_right]

/-- Overwriting the just-appended last element. -/
theorem set_append_last {α : Type} : ∀ (l : List α) (x y : α),
    (l ++ [x]).set l.length y = l ++ [y]
  | [], _, _ => rfl
  | a :: l, x, y => by
    show a :: (l ++ [x]).set l.length y = a :: (l ++ [y])
    rw [set_append_last l x y]

/-- `getD` at an in-range index is a member. -/
theorem getD_mem {α : Type} [Inhabited α] (l : List α) (i : Nat)
    (h : i < l.length) : l.getD i default ∈ l := by
  rw [List.getD_eq_getElem?_getD, List.getElem?_eq_getElem h]
  exact List.getElem_mem h

/-- Every member sits at some in-range index. -/
theorem mem_getD_idx {α : Type} [Inhabited α] (l : List α) (x : α) (h : x ∈ l) :
    ∃ i, i < l.length ∧ l.getD i default = x := by
  obtain ⟨i, hi, he⟩ := List.mem_iff_getElem.mp h
  exact ⟨i, hi, by simp [List.getD_eq_getElem?_getD, List.getElem?_eq_getElem hi, he]⟩

/-- Counting over a snoc. -/
theorem countP_snoc {α : Type} (l : List α) (x : α) (p : α → Bool) :
    (l ++ [x]).countP p = l.countP p + (if p x = true then 1 else 0) := by
  rw [List.countP_append, List.countP_cons, List.countP_nil, Nat.zero_add]

/-- A fold of triangle-record updates never touches the edge store. -/
theorem foldl_edges_const {β : Type} (g : Mesh → β → Mesh)
    (hg : ∀ mm b, (g mm b).edges = mm.edges) :
    ∀ (l : List β) (mm : Mesh), (l.foldl g mm).edges = mm.edges := by
  intro l
  induction l with
  | nil => intro mm; rfl
  | cons b l ih =>
    intro mm
    rw [List.foldl_cons, ih, hg]

/-- `Edge.addTriangle` appends the triangle to exactly one edge record and
leaves the rest of the edge store unchanged. -/
theorem edgeAddTriangle_edges (m : Mesh) (eid tid : Nat) :
    (edgeAddTriangle m eid tid).edges =
      m.edges.set eid { m.edge eid with tris := (m.edge eid).tris ++ [tid] } := by
  have hE : ((m.edge eid).tris.foldl (fun m t' =>
      let m := m.setTri t' (fun tr => { tr with neighbours := tr.neighbours ++ [tid] })
      m.setTri tid (fun tr => { tr with neighbours := tr.neighbours ++ [t'] })) m).edges
      = m.edges :=
    foldl_edges_const (fun m t' =>
      let m := m.setTri t' (fun tr => { tr with neighbours := tr.neighbours ++ [tid] })
      m.setTri tid (fun tr => { tr with neighbours := tr.neighbours ++ [t'] }))
      (fun _ _ => rfl) _ _
  have hEd : ((m.edge eid).tris.foldl (fun m t' =>
      let m := m.setTri t' (fun tr => { tr with neighbours := tr.neighbours ++ [tid] })
      m.setTri tid (fun tr => { tr with neighbours := tr.neighbours ++ [t'] })) m).edge eid
      = m.edge eid := congrArg (fun es => es.getD eid default) hE
  simp only [edgeAddTriangle]
  rw [show ∀ (mm : Mesh) (t : Nat) (f : Triangle → Triangle),
      (Mesh.setTri mm t f).edges = mm.edges from fun _ _ _ => rfl]
  rw [show ∀ (mm : Mesh) (e : Nat) (f : Edge → Edge),
      (Mesh.setEdge mm e f).edges = mm.edges.set e (f (mm.edge e)) from
    fun _ _ _ => rfl]
  rw [hE, hEd]

/-- Fresh-edge creation: the store gains exactly one record carrying the
new pair and the one incident triangle. -/
theorem edges_after_new (m : Mesh) (a b tid : Nat) :
    (edgeAddTriangle { m with edges := m.edges ++ [⟨a, b, []⟩] }
        m.edges.length tid).edges = m.edges ++ [⟨a, b, [tid]⟩] := by
  rw [edgeAddTriangle_edges]
  have h1 : ({ m with edges := m.edges ++ [(⟨a, b, []⟩ : Edge)] } : Mesh).edge
      m.edges.length = ⟨a, b, []⟩ := getD_append_last m.edges ⟨a, b, []⟩
  rw [h1]
  exact set_append_last m.edges ⟨a, b, []⟩ ⟨a, b, [tid]⟩

/-- One strict-mode `Triangle.addEdge` call: success extends the invariant
by the processed pair, failure is exactly the TopologyError. -/
theorem triAddEdge_inv (ps : List (Nat × Nat)) (m : Mesh) (tid a b : Nat)
    (hInv : EdgeInv ps m.edges) :
    (∀ m', triAddEdge true m tid a b = .ok m' →
      EdgeInv (ps ++ [(a, b)]) m'.edges) ∧
    (∀ e, triAddEdge true m tid a b = .error e → e = .topologyError) := by
  obtain ⟨hA, hB, hC⟩ := hInv
  cases hfe : findEdgeIdx m a b with
  | none =>
    have hnone : ∀ e ∈ m.edges, pairMatches (edgePair e) (a, b) = false :=
      fun e he => findIdx?_none_spec _ _ hfe e he
    refine ⟨?_, ?_⟩
    · intro m' hm'
      simp only [triAddEdge, hfe, Except.ok.injEq] at hm'
      subst hm'
      rw [edges_after_new]
      refine ⟨?_, ?_, ?_⟩
      · intro i hi
        rw [List.length_append, List.length_singleton] at hi
        by_cases hilt : i < m.edges.length
        · rw [getD_append_left _ _ _ hilt]
          obtain ⟨hcnt, hle⟩ := hA i hilt
          refine ⟨?_, hle⟩
          rw [countP_snoc,
            if_neg (Bool.eq_false_iff.mp (hnone _ (getD_mem m.edges i hilt))),
            Nat.add_zero, hcnt]
        · have hieq : i = m.edges.length := by omega
          subst hieq
          rw [getD_append_last]
          simp only [edgePair]
          refine ⟨?_, by simp⟩
          rw [countP_snoc, if_pos (pairMatches_refl (a, b)), hB (a, b) hnone]
          rfl
      · intro q hq
        have hq0 : ∀ e ∈ m.edges, pairMatches (edgePair e) q = false :=
          fun e he => hq e (List.mem_append_left _ he)
        have hqa : pairMatches (a, b) q = false := by
          have := hq ⟨a, b, [tid]⟩ (by simp)
          simpa [edgePair] using this
        rw [countP_snoc, if_neg (fun ht =>
          absurd ((pairMatches_symm q (a, b)).mp ht) (Bool.eq_false_iff.mp hqa)),
          hB q hq0]
      · intro i j hi hj hij
        rw [List.length_append, List.length_singleton] at hi hj
        by_cases hil : i < m.edges.length <;> by_cases hjl : j < m.edges.length
        · rw [getD_append_left _ _ _ hil, getD_append_left _ _ _ hjl]
          exact hC i j hil hjl hij
        · have hjeq : j = m.edges.length := by omega
          subst hjeq
          rw [getD_append_left _ _ _ hil, getD_append_last]
          exact hnone _ (getD_mem m.edges i hil)
        · have hieq : i = m.edges.length := by omega
          subst hieq
          rw [getD_append_last, getD_append_left _ _ _ hjl]
          exact pairMatches_false_symm (hnone _ (getD_mem m.edges j hjl))
        · have : i = j := by omega
          exact absurd this hij
    · intro e he
      simp only [triAddEdge, hfe] at he
      exact Except.noConfusion he
  | some eid =>
    obtain ⟨heid, hmatch0⟩ := findIdx?_some_spec _ _ _ hfe
    have hmatchD : pairMatches (edgePair (m.edges.getD eid default)) (a, b) = true :=
      hmatch0
    by_cases hcnt : (m.edge eid).tris.length > 1
    · refine ⟨?_, ?_⟩
      · intro m' hm'
        simp only [triAddEdge, hfe] at hm'
        rw [if_pos (by simp [hcnt])] at hm'
        exact Except.noConfusion hm'
      · intro e he
        simp only [triAddEdge, hfe] at he
        rw [if_pos (by simp [hcnt])] at he
        cases he
        rfl
    · have hle1 : (m.edges.getD eid default).tris.length ≤ 1 := Nat.not_lt.mp hcnt
      refine ⟨?_, ?_⟩
      · intro m' hm'
        simp only [triAddEdge, hfe] at hm'
        rw [if_neg (by simp [hcnt])] at hm'
        cases hm'
        rw [edgeAddTriangle_edges]
        simp only [Mesh.edge]
        have hother : ∀ i, i < m.edges.length → i ≠ eid →
            pairMatches (edgePair (m.edges.getD i default)) (a, b) = false := by
          intro i hilt hine
          cases hb : pairMatches (edgePair (m.edges.getD i default)) (a, b) with
          | false => rfl
          | true =>
            have h1 : pairMatches (a, b) (edgePair (m.edges.getD i default)) = true :=
              (pairMatches_symm _ _).mp hb
            have h2 : pairMatches (edgePair (m.edges.getD eid default))
                (edgePair (m.edges.getD i default)) = true :=
              (pairMatches_compat hmatchD _).mp h1
            exact absurd h2
              (Bool.eq_false_iff.mp (hC eid i heid hilt (fun hh => hine hh.symm)))
        have hpair : ∀ i, i < m.edges.length →
            edgePair ((m.edges.set eid
              { m.edges.getD eid default with
                tris := (m.edges.getD eid default).tris ++ [tid] }).getD i default)
              = edgePair (m.edges.getD i default) := by
          intro i hilt
          by_cases hieq : eid = i
          · subst hieq
            rw [getD_set_self _ _ _ heid]
            rfl
          · rw [getD_set_ne _ _ _ _ hieq]
        have htris : ∀ i, i < m.edges.length → i ≠ eid →
            (m.edges.set eid
              { m.edges.getD eid default with
                tris := (m.edges.getD eid default).tris ++ [tid] }).getD i default
              = m.edges.getD i default := by
          intro i _ hine
          exact getD_set_ne _ _ _ _ (fun hh => hine hh.symm)
        refine ⟨?_, ?_, ?_⟩
        · intro i hi
          rw [List.length_set] at hi
          by_cases hieq : i = eid
          · subst hieq
            rw [getD_set_self _ _ _ heid]
            have hEp : edgePair { m.edges.getD i default with
                tris := (m.edges.getD i default).tris ++ [tid] }
                = edgePair (m.edges.getD i default) := rfl
            rw [hEp]
            show ((m.edges.getD i default).tris ++ [tid]).length = _ ∧
              ((m.edges.getD i default).tris ++ [tid]).length ≤ 2
            obtain ⟨hcnt2, _⟩ := hA i hi
            constructor
            · rw [countP_snoc, if_pos hmatchD, List.length_append,
                List.length_singleton, hcnt2]
            · rw [List.length_append, List.length_singleton]
              omega
          · rw [htris i hi hieq]
            obtain ⟨hcnt2, hle⟩ := hA i hi
            refine ⟨?_, hle⟩
            rw [countP_snoc, if_neg (Bool.eq_false_iff.mp (hother i hi hieq)),
              Nat.add_zero, hcnt2]
        · intro q hq
          have hqe : ∀ i, i < m.edges.length →
              pairMatches (edgePair (m.edges.getD i default)) q = false := by
            intro i hilt
            by_cases hieq : eid = i
            · subst hieq
              have hmem := getD_mem (m.edges.set eid
                  { m.edges.getD eid default with
                    tris := (m.edges.getD eid default).tris ++ [tid] }) eid
                (by rw [List.length_set]; exact heid)
              have := hq _ hmem
              rw [getD_set_self _ _ _ heid] at this
              exact this
            · have hmem := getD_mem (m.edges.set eid
                  { m.edges.getD eid default with
                    tris := (m.edges.getD eid default).tris ++ [tid] }) i
                (by rw [List.length_set]; exact hilt)
              have := hq _ hmem
              rw [htris i hilt (fun hh => hieq hh.symm)] at this
              exact this
          have h0 : ps.countP (pairMatches q) = 0 := hB q (fun e he => by
            obtain ⟨i, hilt, hie⟩ := mem_getD_idx m.edges e he
            rw [← hie]
            exact hqe i hilt)
          rw [countP_snoc, if_neg (fun ht => by
            have h1 := (pairMatches_symm q (a, b)).mp ht
            have h2 := (pairMatches_compat hmatchD q).mp h1
            exact absurd h2 (Bool.eq_false_iff.mp (hqe eid heid))), h0]
        · intro i j hi hj hij
          rw [List.length_set] at hi hj
          rw [hpair i hi, hpair j hj]
          exact hC i j hi hj hij
      · intro e he
        simp only [triAddEdge, hfe] at he
        rw [if_neg (by simp [hcnt])] at he
        exact Except.noConfusion he

/-- One strict-mode `Triangle.__init__` edge pass: success extends the
invariant by the triangle's three ordered pairs, failure is exactly the
TopologyError. -/
theorem triInit_inv (ps : List (Nat × Nat)) (m : Mesh) (tid a b c : Nat)
    (hInv : EdgeInv ps m.edges) :
    (∀ m', triInit true m tid a b c = .ok m' →
      EdgeInv (ps ++ [(c, a), (a, b), (b, c)]) m'.edges) ∧
    (∀ e, triInit true m tid a b c = .error e → e = .topologyError) := by
  refine ⟨?_, ?_⟩
  · intro m' hm'
    simp only [triInit] at hm'
    obtain ⟨m1, h1, hm'⟩ := bind_ok_elim hm'
    obtain ⟨m2, h2, h3⟩ := bind_ok_elim hm'
    have i1 := (triAddEdge_inv ps (vxAppendTri m c tid) tid c a hInv).1 m1 h1
    have i2 := (triAddEdge_inv (ps ++ [(c, a)]) (vxAppendTri m1 a tid) tid a b i1).1 m2 h2
    have i3 := (triAddEdge_inv (ps ++ [(c, a)] ++ [(a, b)])
      (vxAppendTri m2 b tid) tid b c i2).1 m' h3
    have hl : ((ps ++ [(c, a)]) ++ [(a, b)]) ++ [(b, c)]
        = ps ++ [(c, a), (a, b), (b, c)] := by simp
    rw [← hl]
    exact i3
  · intro e he
    simp only [triInit] at he
    rcases bind_error_elim he with h1 | ⟨m1, h1, he⟩
    · exact (triAddEdge_inv ps (vxAppendTri m c tid) tid c a hInv).2 e h1
    · have i1 := (triAddEdge_inv ps (vxAppendTri m c tid) tid c a hInv).1 m1 h1
      rcases bind_error_elim he with h2 | ⟨m2, h2, he⟩
      · exact (triAddEdge_inv (ps ++ [(c, a)]) (vxAppendTri m1 a tid) tid a b i1).2 e h2
      · have i2 := (triAddEdge_inv (ps ++ [(c, a)]) (vxAppendTri m1 a tid) tid a b i1).1 m2 h2
        exact (triAddEdge_inv (ps ++ [(c, a)] ++ [(a, b)])
          (vxAppendTri m2 b tid) tid b c i2).2 e he

/-- Strict-mode triangle construction over a work list: success extends
the invariant by all processed pairs, failure (with uv chunks covering
the processed triangles) is exactly the TopologyError. -/
theorem buildTris_inv (triList : List Nat) (uvChunks : Option (List (List Nat))) :
    ∀ (rest : List Nat) (m : Mesh) (ps : List (Nat × Nat)),
      EdgeInv ps m.edges →
      (∀ i ∈ rest, ∀ cs, uvChunks = some cs → i < cs.length) →
      (∀ m', buildTris true triList uvChunks rest m = .ok m' →
        EdgeInv (ps ++ rest.flatMap (triPairsAt triList)) m'.edges) ∧
      (∀ e, buildTris true triList uvChunks rest m = .error e →
        e = .topologyError) := by
  intro rest
  induction rest with
  | nil =>
    intro m ps hInv _
    refine ⟨?_, ?_⟩
    · intro m' hm'
      simp only [buildTris, Except.ok.injEq] at hm'
      subst hm'
      simpa using hInv
    · intro e he
      simp only [buildTris] at he
      exact Except.noConfusion he
  | cons i rest ih =>
    intro m ps hInv hcov
    have hcov' : ∀ j ∈ rest, ∀ cs, uvChunks = some cs → j < cs.length :=
      fun j hj => hcov j (List.mem_cons_of_mem i hj)
    have hfm : (i :: rest).flatMap (triPairsAt triList)
        = triPairsAt triList i ++ rest.flatMap (triPairsAt triList) := by simp
    cases uvChunks with
    | none =>
      refine ⟨?_, ?_⟩
      · intro m' hm'
        simp only [buildTris] at hm'
        rw [hfm, ← List.append_assoc]
        obtain ⟨u, hu, h2⟩ := bind_ok_elim hm'
        obtain ⟨m1, hti, hrest⟩ := bind_ok_elim h2
        exact (ih m1 (ps ++ triPairsAt triList i)
          ((triInit_inv ps _ i _ _ _ (by exact hInv)).1 m1 hti) hcov').1 m' hrest
      · intro e he
        simp only [buildTris] at he
        rcases bind_error_elim he with herr | ⟨u, hu, h2⟩
        · exact Except.noConfusion herr
        · rcases bind_error_elim h2 with herr | ⟨m1, hti, hrest⟩
          · exact (triInit_inv ps _ i _ _ _ (by exact hInv)).2 e herr
          · exact (ih m1 (ps ++ triPairsAt triList i)
              ((triInit_inv ps _ i _ _ _ (by exact hInv)).1 m1 hti) hcov').2 e hrest
    | some cs =>
      have hpos : i < cs.length := hcov i (List.mem_cons_self i rest) cs rfl
      refine ⟨?_, ?_⟩
      · intro m' hm'
        simp only [buildTris] at hm'
        rw [if_pos hpos] at hm'
        rw [hfm, ← List.append_assoc]
        obtain ⟨u, hu, h2⟩ := bind_ok_elim hm'
        obtain ⟨m1, hti, hrest⟩ := bind_ok_elim h2
        exact (ih m1 (ps ++ triPairsAt triList i)
          ((triInit_inv ps _ i _ _ _ (by exact hInv)).1 m1 hti) hcov').1 m' hrest
      · intro e he
        simp only [buildTris] at he
        rw [if_pos hpos] at he
        rcases bind_error_elim he with herr | ⟨u, hu, h2⟩
        · exact Except.noConfusion herr
        · rcases bind_error_elim h2 with herr | ⟨m1, hti, hrest⟩
          · exact (triInit_inv ps _ i _ _ _ (by exact hInv)).2 e herr
          · exact (ih m1 (ps ++ triPairsAt triList i)
              ((triInit_inv ps _ i _ _ _ (by exact hInv)).1 m1 hti) hcov').2 e hrest

/-- The empty edge store with no processed pairs. -/
theorem EdgeInv_nil : EdgeInv [] [] := by
  refine ⟨?_, ?_, ?_⟩
  · intro i hi
    simp at hi
  · intro q _
    rfl
  · intro i j hi _ _
    simp at hi

/-- `divide_chunks(l, 3)` produces `⌈|l| / 3⌉` chunks. -/
theorem divideChunks3_length {α : Type} : ∀ (l : List α),
    (divideChunks3 l).length = (l.length + 2) / 3
  | [] => by simp [divideChunks3]
  | [_] => by simp [divideChunks3]
  | [_, _] => by simp [divideChunks3]
  | _ :: _ :: _ :: rest => by
    simp only [divideChunks3, List.length_cons]
    rw [divideChunks3_length rest]
    omega

/-- Strict-mode mesh construction on a nonempty index list whose uv list
(if any) covers every triangle: success carries the edge invariant over
the full pair list, failure is exactly the TopologyError. -/
theorem buildMesh_strict (ixs : List Nat) (uvList : Option (List Nat))
    (hne : ixs ≠ []) (hcov : uvCoversTris ixs uvList) :
    (∀ m, buildMesh true ixs uvList = .ok m → EdgeInv (triPairs ixs) m.edges) ∧
    (∀ e, buildMesh true ixs uvList = .error e → e = .topologyError) := by
  obtain ⟨mx, hmx⟩ : ∃ mx, ixs.max? = some mx := by
    cases hm : ixs.max? with
    | none => exact absurd (List.max?_eq_none_iff.mp hm) hne
    | some mx => exact ⟨mx, rfl⟩
  have hcov' : ∀ i ∈ List.range (ixs.length / 3), ∀ cs,
      (if pyTruthyList uvList then some (divideChunks3 (uvList.getD [])) else none)
        = some cs → i < cs.length := by
    intro i hi cs hcs
    by_cases ht : pyTruthyList uvList = true
    · rw [if_pos ht] at hcs
      cases hcs
      cases uvList with
      | none => simp [pyTruthyList] at ht
      | some l =>
        have hl : l ≠ [] := by
          simp only [pyTruthyList, Bool.not_eq_true'] at ht
          exact fun hh => by simp [hh] at ht
        rcases hcov with hcase | hlen3
        · exact absurd hcase hl
        · rw [List.mem_range] at hi
          simp only [Option.getD_some]
          rw [divideChunks3_length]
          omega
    · rw [if_neg ht] at hcs
      exact Option.noConfusion hcs
  have hmain := buildTris_inv ixs
    (if pyTruthyList uvList then some (divideChunks3 (uvList.getD [])) else none)
    (List.range (ixs.length / 3))
    { vertices := (List.range (mx + 1)).map (fun v => ⟨v, v, []⟩),
      edges := [], triangles := [] }
    [] EdgeInv_nil hcov'
  refine ⟨?_, ?_⟩
  · intro m hm
    simp only [buildMesh, hmx, Bind.bind, Except.bind, Pure.pure, Except.pure] at hm
    have h := hmain.1 m hm
    rw [List.nil_append] at h
    exact h
  · intro e he
    simp only [buildMesh, hmx, Bind.bind, Except.bind, Pure.pure, Except.pure] at he
    exact hmain.2 e he

/-- An edge store satisfying the invariant over the full pair list rules
out a triple edge. -/
theorem EdgeInv_bound (ixs : List Nat) (es : List Edge)
    (hInv : EdgeInv (triPairs ixs) es) (hT : hasTripleEdge ixs = true) : False := by
  obtain ⟨hA, hB, hC⟩ := hInv
  simp only [hasTripleEdge, List.any_eq_true, decide_eq_true_eq] at hT
  obtain ⟨p, hp, hgt⟩ := hT
  simp only [edgeIncidences] at hgt
  by_cases hall : ∀ e ∈ es, pairMatches (edgePair e) p = false
  · have := hB p hall
    omega
  · push_neg at hall
    obtain ⟨e, he, hpe⟩ := hall
    have hpe' : pairMatches (edgePair e) p = true := by
      cases hb : pairMatches (edgePair e) p with
      | false => exact absurd hb hpe
      | true => rfl
    obtain ⟨i, hilt, hie⟩ := mem_getD_idx es e he
    obtain ⟨hcnt, hle⟩ := hA i hilt
    rw [hie] at hcnt hle
    have hcongr : (triPairs ixs).countP (pairMatches p)
        = (triPairs ixs).countP (pairMatches (edgePair e)) :=
      List.countP_congr (fun x _ => pairMatches_compat hpe' x)
    rw [hcongr, ← hcnt] at hgt
    omega

/-- C4 (amended).  With `raiseTopoError=True` (and a uv list, when
supplied, that provides chunks for every triangle), any input containing
an edge shared by three or more triangle sides makes `Strippify` raise
TopologyError during mesh construction — before any strip is emitted and
regardless of the `doSwaps`/`concat` flags or the loop fuel; but the
entry point's default is `raiseTopoError=False`, under which the
non-manifold input `tripleIxs` raises no TopologyError. -/
theorem C4_topology_error (ixs : List Nat) (uvList : Option (List Nat))
    (ds cc : Bool) (fuel : Nat)
    (hT : hasTripleEdge ixs = true) (hcov : uvCoversTris ixs uvList) :
    Strippify ixs uvList ds cc true fuel = .error .topologyError ∧
    Strippify tripleIxs none false false false 100 ≠ .error .topologyError := by
  have hne : ixs ≠ [] := by
    intro h
    rw [h] at hT
    exact absurd hT (by decide)
  have hbm := buildMesh_strict ixs uvList hne hcov
  have hmb : buildMesh true ixs uvList = .error .topologyError := by
    cases hb : buildMesh true ixs uvList with
    | ok m => exact (EdgeInv_bound ixs m.edges (hbm.1 m hb) hT).elim
    | error e => rw [hbm.2 e hb]
  refine ⟨?_, ?_⟩
  · simp only [Strippify, hmb, Bind.bind, Except.bind]
  · intro h
    rw [show Strippify tripleIxs none false false false 100 =
      .ok ⟨[[2, 1, 0, 3], [0, 4, 1]], [[2, 1, 0, 3], [0, 4, 1]], none⟩ from rfl] at h
    exact Except.noConfusion h

/-- Witness for C4: on the three-triangles-on-one-edge input the strict
call raises TopologyError and the default call does not. -/
theorem C4_topology_error_witness :
    hasTripleEdge tripleIxs = true ∧ uvCoversTris tripleIxs none ∧
    (Strippify tripleIxs none false false true 100 = .error .topologyError ∧
     Strippify tripleIxs none false false false 100 ≠ .error .topologyError) :=
  ⟨by decide, trivial,
   C4_topology_error tripleIxs none false false 100 (by decide) trivial⟩

/-- Appending entries of equal length preserves pairwise-equal lengths. -/
theorem forall2_snoc {l1 l2 : List (List Nat)}
    (h : List.Forall₂ (fun a b => a.length = b.length) l1 l2)
    {a b : List Nat} (hab : a.length = b.length) :
    List.Forall₂ (fun a b => a.length = b.length) (l1 ++ [a]) (l2 ++ [b]) :=
  List.rel_append h (List.Forall₂.cons hab List.Forall₂.nil)

/-- Appending a strip of length at least three preserves the bound. -/
theorem mem_snoc_len (strips : List (List Nat)) (st : List Nat)
    (h : ∀ x ∈ strips, 3 ≤ x.length) (hst : 3 ≤ st.length) :
    ∀ x ∈ strips ++ [st], 3 ≤ x.length := by
  intro x hx
  rcases List.mem_append.mp hx with hx | hx
  · exact h x hx
  · rw [List.mem_singleton.mp hx]
    exact hst

/-- The conditional winding-fix cons changes two lists' lengths in step. -/
theorem length_fix_cons {α : Type} (b : Bool) (x y : α) (l1 l2 : List α)
    (h : l1.length = l2.length) :
    (if b = true then x :: l1 else l1).length
      = (if b = true then y :: l2 else l2).length := by
  cases b <;> simp [h]

/-- The conditional winding-fix cons preserves the length bound. -/
theorem length_fix_cons_ge {α : Type} (b : Bool) (x : α) (l : List α)
    (h : 3 ≤ l.length) : 3 ≤ (if b = true then x :: l else l).length := by
  cases b <;> simp <;> omega

/-- Building a state from parts that satisfy the strip-length relations. -/
theorem SInv_mk_parts (uvT : Bool) (m : Mesh) (wr : Nat)
    (strips nstrips uvstrips : List (List Nat)) (hu : Bool)
    (h1 : List.Forall₂ (fun a b => a.length = b.length) strips nstrips)
    (h2 : ∀ st ∈ strips, 3 ≤ st.length)
    (h3 : uvT = true → List.Forall₂ (fun a b => a.length = b.length) strips uvstrips)
    (h4 : hu = uvT) :
    SInv uvT ⟨m, wr, strips, nstrips, uvstrips, hu⟩ := ⟨h1, h2, h3, h4⟩

/-- `addZTriangle` appends one length-3 strip to all the parallel lists. -/
theorem addZTriangle_sinv (uvT : Bool) (s : SState) (t : Nat) (s' : SState)
    (hInv : SInv uvT s) (h : addZTriangle s t = .ok s') : SInv uvT s' := by
  simp only [addZTriangle] at h
  by_cases huvT : uvT = true
  · have hhuT : s.hasUv = true := hInv.2.2.2.trans huvT
    rw [if_pos hhuT] at h
    obtain ⟨ua, hua, h⟩ := bind_ok_elim h
    obtain ⟨ub, hub, h⟩ := bind_ok_elim h
    obtain ⟨uc, huc, h⟩ := bind_ok_elim h
    obtain ⟨uvs, hus, h⟩ := bind_ok_elim h
    obtain rfl := Except.ok.inj hus
    obtain rfl := Except.ok.inj h
    refine SInv_mk_parts uvT _ _ _ _ _ _ ?_ ?_ ?_ ?_
    · exact forall2_snoc hInv.1 rfl
    · exact mem_snoc_len _ _ hInv.2.1 (by simp)
    · exact fun hT => forall2_snoc (hInv.2.2.1 hT) rfl
    · exact hInv.2.2.2
  · have hhuF : ¬s.hasUv = true := fun hh => huvT (hInv.2.2.2.symm.trans hh)
    rw [if_neg hhuF] at h
    obtain ⟨uvs, hus, h⟩ := bind_ok_elim h
    obtain rfl := Except.ok.inj hus
    obtain rfl := Except.ok.inj h
    refine SInv_mk_parts uvT _ _ _ _ _ _ ?_ ?_ ?_ ?_
    · exact forall2_snoc hInv.1 rfl
    · exact mem_snoc_len _ _ hInv.2.1 (by simp)
    · exact fun hT => absurd hT huvT
    · exact hInv.2.2.2

/-- The first-triangle scan only Z-emits lone triangles, preserving the
strip-length relations. -/
theorem getFirstTriGo_sinv (uvT : Bool) : ∀ (l : List Nat) (s : SState)
    (curN : Nat) (res : Option Nat) (p : SState × Option Nat),
    SInv uvT s → getFirstTriGo l s curN res = .ok p → SInv uvT p.1 := by
  intro l
  induction l with
  | nil =>
    intro s curN res p hInv h
    simp only [getFirstTriGo] at h
    obtain rfl := Except.ok.inj h
    exact hInv
  | cons t rest ih =>
    intro s curN res p hInv h
    simp only [getFirstTriGo] at h
    by_cases h1 : (!(s.m.tri t).used) = true
    · rw [if_pos h1] at h
      by_cases h2 : ((s.m.availableNeighbours t).length) = 0
      · rw [if_pos h2] at h
        obtain ⟨s1, hz, h⟩ := bind_ok_elim h
        exact ih s1 curN res p (addZTriangle_sinv uvT s t s1 hInv hz) h
      · rw [if_neg h2] at h
        by_cases h3 : ((s.m.availableNeighbours t).length) < curN
        · rw [if_pos h3] at h
          by_cases h4 : ((s.m.availableNeighbours t).length) = 1
          · rw [if_pos h4] at h
            obtain rfl := Except.ok.inj h
            exact hInv
          · rw [if_neg h4] at h
            exact ih s _ _ p hInv h
        · rw [if_neg h3] at h
          exact ih s curN res p hInv h
    · rw [if_neg h1] at h
      exact ih s curN res p hInv h

/-- A `some` result of the (sequential-mode) reversal check keeps the
walk length relations and does not touch the accumulated state. -/
theorem reverseCheck_winv (uvT : Bool) (w : Walk) (r : Option Walk)
    (hW : WInv uvT w) (h : reverseCheck false w = .ok r) :
    ∀ w2, r = some w2 → WInv uvT w2 ∧ w2.s = w.s := by
  obtain ⟨hn, h3, huv, hhu⟩ := hW
  intro w2 hr
  subst hr
  cases hnt : w.newTri with
  | some t =>
    simp only [reverseCheck, hnt, Except.ok.injEq, Option.some.injEq] at h
    subst h
    exact ⟨⟨hn, h3, huv, hhu⟩, rfl⟩
  | none =>
    simp only [reverseCheck, hnt] at h
    split at h
    · obtain ⟨nt2, hnt2, h⟩ := bind_ok_elim h
      split at h
      · simp at h
      · cases hus : w.uvStrip with
        | none =>
          simp only [hus] at h
          obtain ⟨uvv, huvv, h⟩ := bind_ok_elim h
          exact Except.noConfusion huvv
        | some l =>
          simp only [hus] at h
          obtain ⟨uvv, huvv, h⟩ := bind_ok_elim h
          obtain rfl := Except.ok.inj huvv
          simp only [Except.ok.injEq, Option.some.injEq] at h
          subst h
          refine ⟨⟨?_, ?_, ?_, hhu⟩, rfl⟩
          · simp [hn]
          · simpa using h3
          · intro huvT
            obtain ⟨l0, hl0, hlen0⟩ := huv huvT
            rw [hus] at hl0
            cases hl0
            exact ⟨l.reverse, rfl, by simpa using hlen0⟩
    · simp at h

/-- The inner strip-growing loop keeps the walk length relations and
never touches the accumulated strips. -/
theorem innerLoop_winv (uvT : Bool) : ∀ (fuel : Nat) (w w' : Walk),
    WInv uvT w → innerLoop false fuel w = .ok w' →
    WInv uvT w' ∧ w'.s.strips = w.s.strips ∧
    w'.s.normalStrips = w.s.normalStrips ∧ w'.s.uvStrips = w.s.uvStrips ∧
    w'.s.hasUv = w.s.hasUv := by
  intro fuel
  induction fuel with
  | zero =>
    intro w w' _ h
    simp only [innerLoop] at h
    exact Except.noConfusion h
  | succ fuel ih =>
    intro w w' hW h
    obtain ⟨hn, h3, huv, hhu⟩ := hW
    simp only [innerLoop] at h
    by_cases hhuT : w.s.hasUv = true
    · rw [if_pos hhuT] at h
      obtain ⟨l, hl, hllen⟩ := huv (hhu.symm.trans hhuT)
      simp only [hl] at h
      obtain ⟨u, hu, h⟩ := bind_ok_elim h
      obtain ⟨us, hus, h⟩ := bind_ok_elim h
      obtain rfl := Except.ok.inj hus
      have hW1 : WInv uvT { w with
          strip := w.strip ++ [w.curVert],
          nStrip := w.nStrip ++ [(w.s.m.vx w.curVert).normal_index],
          uvStrip := some (l ++ [u]),
          s := { w.s with written := w.s.written + 1 } } := by
        refine ⟨by simp [hn], by simp; omega, ?_, hhu⟩
        intro _
        exact ⟨l ++ [u], rfl, by simp [hllen]⟩
      obtain ⟨ropt, hrc, h⟩ := bind_ok_elim h
      cases ropt with
      | none =>
        obtain rfl := Except.ok.inj h
        exact ⟨hW1, rfl, rfl, rfl, rfl⟩
      | some w2 =>
        obtain ⟨hW2, hs2⟩ := reverseCheck_winv uvT _ _ hW1 hrc w2 rfl
        obtain ⟨p2, hws, h⟩ := bind_ok_elim h
        obtain rfl := Except.ok.inj hws
        cases hnt2 : w2.newTri with
        | none =>
          simp only [hnt2] at h
          obtain ⟨x, hx, h⟩ := bind_ok_elim h
          exact Except.noConfusion hx
        | some t0 =>
          simp only [hnt2] at h
          obtain ⟨t1, ht1, h⟩ := bind_ok_elim h
          obtain rfl := Except.ok.inj ht1
          cases htv : w2.s.m.getThirdVertex t0 w2.prevVert w2.curVert with
          | none =>
            simp only [htv] at h
            obtain rfl := Except.ok.inj h
            refine ⟨hW2, ?_, ?_, ?_, ?_⟩
            · rw [hs2]
            · rw [hs2]
            · rw [hs2]
            · rw [hs2]
          | some nv =>
            simp only [htv] at h
            split at h
            · obtain ⟨nt4, hnt4, h⟩ := bind_ok_elim h
              obtain ⟨hw', hstq, hnstq, huvstq, hhuq⟩ := ih _ w' (by exact hW2) h
              refine ⟨hw', ?_, ?_, ?_, ?_⟩
              · rw [hstq]
                show w2.s.strips = w.s.strips
                rw [hs2]
              · rw [hnstq]
                show w2.s.normalStrips = w.s.normalStrips
                rw [hs2]
              · rw [huvstq]
                show w2.s.uvStrips = w.s.uvStrips
                rw [hs2]
              · rw [hhuq]
                show w2.s.hasUv = w.s.hasUv
                rw [hs2]
            · obtain ⟨nt4, hnt4, h⟩ := bind_ok_elim h
              obtain ⟨hw', hstq, hnstq, huvstq, hhuq⟩ := ih _ w' (by exact hW2) h
              refine ⟨hw', ?_, ?_, ?_, ?_⟩
              · rw [hstq]
                show w2.s.strips = w.s.strips
                rw [hs2]
              · rw [hnstq]
                show w2.s.normalStrips = w.s.normalStrips
                rw [hs2]
              · rw [huvstq]
                show w2.s.uvStrips = w.s.uvStrips
                rw [hs2]
              · rw [hhuq]
                show w2.s.hasUv = w.s.hasUv
                rw [hs2]
    · rw [if_neg hhuT] at h
      have huvF : ¬uvT = true := fun hT => hhuT (hhu.trans hT)
      obtain ⟨us, hus, h⟩ := bind_ok_elim h
      obtain rfl := Except.ok.inj hus
      have hW1 : WInv uvT { w with
          strip := w.strip ++ [w.curVert],
          nStrip := w.nStrip ++ [(w.s.m.vx w.curVert).normal_index],
          uvStrip := w.uvStrip,
          s := { w.s with written := w.s.written + 1 } } := by
        refine ⟨by simp [hn], by simp; omega, fun hT => absurd hT huvF, hhu⟩
      obtain ⟨ropt, hrc, h⟩ := bind_ok_elim h
      cases ropt with
      | none =>
        obtain rfl := Except.ok.inj h
        exact ⟨hW1, rfl, rfl, rfl, rfl⟩
      | some w2 =>
        obtain ⟨hW2, hs2⟩ := reverseCheck_winv uvT _ _ hW1 hrc w2 rfl
        obtain ⟨p2, hws, h⟩ := bind_ok_elim h
        obtain rfl := Except.ok.inj hws
        cases hnt2 : w2.newTri with
        | none =>
          simp only [hnt2] at h
          obtain ⟨x, hx, h⟩ := bind_ok_elim h
          exact Except.noConfusion hx
        | some t0 =>
          simp only [hnt2] at h
          obtain ⟨t1, ht1, h⟩ := bind_ok_elim h
          obtain rfl := Except.ok.inj ht1
          cases htv : w2.s.m.getThirdVertex t0 w2.prevVert w2.curVert with
          | none =>
            simp only [htv] at h
            obtain rfl := Except.ok.inj h
            refine ⟨hW2, ?_, ?_, ?_, ?_⟩
            · rw [hs2]
            · rw [hs2]
            · rw [hs2]
            · rw [hs2]
          | some nv =>
            simp only [htv] at h
            split at h
            · obtain ⟨nt4, hnt4, h⟩ := bind_ok_elim h
              obtain ⟨hw', hstq, hnstq, huvstq, hhuq⟩ := ih _ w' (by exact hW2) h
              refine ⟨hw', ?_, ?_, ?_, ?_⟩
              · rw [hstq]
                show w2.s.strips = w.s.strips
                rw [hs2]
              · rw [hnstq]
                show w2.s.normalStrips = w.s.normalStrips
                rw [hs2]
              · rw [huvstq]
                show w2.s.uvStrips = w.s.uvStrips
                rw [hs2]
              · rw [hhuq]
                show w2.s.hasUv = w.s.hasUv
                rw [hs2]
            · obtain ⟨nt4, hnt4, h⟩ := bind_ok_elim h
              obtain ⟨hw', hstq, hnstq, huvstq, hhuq⟩ := ih _ w' (by exact hW2) h
              refine ⟨hw', ?_, ?_, ?_, ?_⟩
              · rw [hstq]
                show w2.s.strips = w.s.strips
                rw [hs2]
              · rw [hnstq]
                show w2.s.normalStrips = w.s.normalStrips
                rw [hs2]
              · rw [huvstq]
                show w2.s.uvStrips = w.s.uvStrips
                rw [hs2]
              · rw [hhuq]
                show w2.s.hasUv = w.s.hasUv
                rw [hs2]

/-- The outer strip-collection loop preserves the strip-length
relations of the accumulated output. -/
theorem outerLoop_sinv (uvT : Bool) (triCount : Nat) : ∀ (fuel : Nat)
    (s : SState) (ft : Option Nat) (s' : SState),
    SInv uvT s → outerLoop uvT false triCount fuel s ft = .ok s' →
    SInv uvT s' := by
  intro fuel
  induction fuel with
  | zero =>
    intro s ft s' _ h
    simp only [outerLoop] at h
    exact Except.noConfusion h
  | succ fuel ih =>
    intro s ft s' hInv h
    rw [outerLoop] at h
    rcases ite_ok_elim h with ⟨hw, h⟩ | ⟨hw, h⟩
    · exact Except.ok.inj h ▸ hInv
    · obtain ⟨ftv, hftv, h⟩ := bind_ok_elim h
      obtain ⟨ntq, hntq, h⟩ := bind_ok_elim h
      obtain ⟨ntv, hntv, h⟩ := bind_ok_elim h
      rcases ite_ok_elim h with ⟨hbc, h⟩ | ⟨hbc, h⟩
      · obtain ⟨s1, hz, h⟩ := bind_ok_elim h
        obtain ⟨p1, hgf, h⟩ := bind_ok_elim h
        exact ih p1.1 p1.2 s'
          (getFirstTriGo_sinv uvT _ _ _ _ p1
            (addZTriangle_sinv uvT _ _ s1 (by exact hInv) hz) (by exact hgf)) h
      · obtain ⟨eidv, heid, h⟩ := bind_ok_elim h
        obtain ⟨sntq, hsnt, h⟩ := bind_ok_elim h
        cases sntq with
        | none =>
          obtain ⟨pv, hpv, h⟩ := bind_ok_elim h
          obtain ⟨tv, htv, h⟩ := bind_ok_elim h
          rcases ite_ok_elim h with ⟨huvT, h⟩ | ⟨huvT, h⟩
          · obtain ⟨ua, hua, h⟩ := bind_ok_elim h
            obtain ⟨ub, hub, h⟩ := bind_ok_elim h
            obtain ⟨uc, huc, h⟩ := bind_ok_elim h
            obtain ⟨ud, hud, h⟩ := bind_ok_elim h
            obtain ⟨s1, hs1, h⟩ := bind_ok_elim h
            obtain rfl := Except.ok.inj hs1
            obtain ⟨p1, hgf, h⟩ := bind_ok_elim h
            refine ih p1.1 p1.2 s'
              (getFirstTriGo_sinv uvT _ _ _ _ p1 ?_ (by exact hgf)) h
            refine SInv_mk_parts uvT _ _ _ _ _ _ ?_ ?_ ?_ ?_
            · exact forall2_snoc hInv.1 rfl
            · exact mem_snoc_len _ _ hInv.2.1 (by simp)
            · exact fun hT => forall2_snoc (hInv.2.2.1 hT) rfl
            · exact hInv.2.2.2
          · obtain ⟨s1, hs1, h⟩ := bind_ok_elim h
            obtain rfl := Except.ok.inj hs1
            obtain ⟨p1, hgf, h⟩ := bind_ok_elim h
            refine ih p1.1 p1.2 s'
              (getFirstTriGo_sinv uvT _ _ _ _ p1 ?_ (by exact hgf)) h
            refine SInv_mk_parts uvT _ _ _ _ _ _ ?_ ?_ ?_ ?_
            · exact forall2_snoc hInv.1 rfl
            · exact mem_snoc_len _ _ hInv.2.1 (by simp)
            · exact fun hT => absurd hT huvT
            · exact hInv.2.2.2
        | some sntv =>
          obtain ⟨pv, hpv, h⟩ := bind_ok_elim h
          rcases ite_ok_elim h with ⟨huvT, h⟩ | ⟨huvT, h⟩
          · obtain ⟨ua, hua, h⟩ := bind_ok_elim h
            obtain ⟨ub, hub, h⟩ := bind_ok_elim h
            obtain ⟨uc, huc, h⟩ := bind_ok_elim h
            obtain ⟨uvS, huvS, h⟩ := bind_ok_elim h
            obtain rfl := Except.ok.inj huvS
            obtain ⟨cur2, hcur2, h⟩ := bind_ok_elim h
            obtain ⟨w1, hil, h⟩ := bind_ok_elim h
            obtain ⟨hw1, hstq, hnstq, huvstq, hhuq⟩ :=
              innerLoop_winv uvT fuel _ w1 (by
                exact ⟨rfl, Nat.le_refl 3,
                  fun _ => ⟨[ua, ub, uc], rfl, rfl⟩, hInv.2.2.2⟩) hil
            have hstq' : w1.s.strips = s.strips := hstq
            have hnstq' : w1.s.normalStrips = s.normalStrips := hnstq
            have huvstq' : w1.s.uvStrips = s.uvStrips := huvstq
            have hhuq' : w1.s.hasUv = s.hasUv := hhuq
            obtain ⟨l, hl, hllen⟩ := hw1.2.2.1 huvT
            rcases ite_ok_elim h with ⟨-, h⟩ | ⟨hc, -⟩
            · obtain ⟨l2, hl2, h⟩ := bind_ok_elim h
              rw [hl] at hl2
              obtain rfl := Except.ok.inj hl2
              obtain ⟨uvS2, huvS2, h⟩ := bind_ok_elim h
              obtain rfl := Except.ok.inj huvS2
              rcases ite_ok_elim h with ⟨-, h⟩ | ⟨hc, -⟩
              · obtain ⟨l3, hl3, h⟩ := bind_ok_elim h
                obtain rfl := Except.ok.inj hl3
                obtain ⟨s1, hs1, h⟩ := bind_ok_elim h
                obtain rfl := Except.ok.inj hs1
                obtain ⟨p1, hgf, h⟩ := bind_ok_elim h
                refine ih p1.1 p1.2 s'
                  (getFirstTriGo_sinv uvT _ _ _ _ p1 ?_ (by exact hgf)) h
                refine SInv_mk_parts uvT _ _ _ _ _ _ ?_ ?_ ?_ ?_
                · rw [hstq', hnstq']
                  exact forall2_snoc hInv.1 (length_fix_cons _ _ _ _ _ hw1.1.symm)
                · rw [hstq']
                  exact mem_snoc_len _ _ hInv.2.1 (length_fix_cons_ge _ _ _ hw1.2.1)
                · intro hT
                  rw [hstq', huvstq']
                  exact forall2_snoc (hInv.2.2.1 hT)
                    (length_fix_cons _ _ _ _ _ hllen.symm)
                · exact hhuq'.trans hInv.2.2.2
              · exact absurd huvT hc
            · exact absurd huvT hc
          · obtain ⟨uvS, huvS, h⟩ := bind_ok_elim h
            obtain rfl := Except.ok.inj huvS
            obtain ⟨cur2, hcur2, h⟩ := bind_ok_elim h
            obtain ⟨w1, hil, h⟩ := bind_ok_elim h
            obtain ⟨hw1, hstq, hnstq, huvstq, hhuq⟩ :=
              innerLoop_winv uvT fuel _ w1 (by
                exact ⟨rfl, Nat.le_refl 3,
                  fun hT => absurd hT huvT, hInv.2.2.2⟩) hil
            have hstq' : w1.s.strips = s.strips := hstq
            have hnstq' : w1.s.normalStrips = s.normalStrips := hnstq
            have hhuq' : w1.s.hasUv = s.hasUv := hhuq
            rcases ite_ok_elim h with ⟨hc, -⟩ | ⟨-, h⟩
            · exact absurd hc huvT
            · obtain ⟨uvS2, huvS2, h⟩ := bind_ok_elim h
              obtain rfl := Except.ok.inj huvS2
              rcases ite_ok_elim h with ⟨hc, -⟩ | ⟨-, h⟩
              · exact absurd hc huvT
              · obtain ⟨s1, hs1, h⟩ := bind_ok_elim h
                obtain rfl := Except.ok.inj hs1
                obtain ⟨p1, hgf, h⟩ := bind_ok_elim h
                refine ih p1.1 p1.2 s'
                  (getFirstTriGo_sinv uvT _ _ _ _ p1 ?_ (by exact hgf)) h
                refine SInv_mk_parts uvT _ _ _ _ _ _ ?_ ?_ ?_ ?_
                · rw [hstq', hnstq']
                  exact forall2_snoc hInv.1 (length_fix_cons _ _ _ _ _ hw1.1.symm)
                · rw [hstq']
                  exact mem_snoc_len _ _ hInv.2.1 (length_fix_cons_ge _ _ _ hw1.2.1)
                · exact fun hT => absurd hT huvT
                · exact hhuq'.trans hInv.2.2.2

/-- C3 (amended).  With the default `doSwaps=False` and `concat=False`,
every strip a successful `Strippify` call returns has length at least 3,
its normal sequence has exactly the same length, and, when a uv list was
supplied, so does its uv sequence.  (Entry-wise parallelism of the
normal sequence fails on reversal-completed strips — see the
counterexample — but the lengths always agree.) -/
theorem C3_parallel_lengths (ixs : List Nat) (uvList : Option (List Nat))
    (rt : Bool) (fuel : Nat) (out : StripOutput)
    (h : Strippify ixs uvList false false rt fuel = .ok out) :
    lensEq out.strips out.normalStrips ∧
    (∀ st ∈ out.strips, 3 ≤ st.length) ∧
    (∀ us, out.uvStrips = some us → lensEq out.strips us) := by
  simp only [Strippify] at h
  obtain ⟨m, hbm, h⟩ := bind_ok_elim h
  obtain ⟨p1, hgf, h⟩ := bind_ok_elim h
  obtain ⟨s1, ft1⟩ := p1
  obtain ⟨s2, hout, h⟩ := bind_ok_elim h
  obtain ⟨res, hres, h⟩ := bind_ok_elim h
  obtain rfl := Except.ok.inj hres
  have hS0 : SInv (pyTruthyList uvList) ⟨m, 0, [], [], [], pyTruthyList uvList⟩ :=
    ⟨List.Forall₂.nil, by simp, fun _ => List.Forall₂.nil, rfl⟩
  have hS1 := getFirstTriGo_sinv (pyTruthyList uvList) _ _ _ _ (s1, ft1) hS0 hgf
  have hS2 := outerLoop_sinv (pyTruthyList uvList) m.triangles.length fuel s1 ft1 s2
    (by exact hS1) hout
  by_cases huvT : pyTruthyList uvList = true
  · rw [if_pos huvT] at h
    obtain rfl := Except.ok.inj h
    refine ⟨hS2.1, hS2.2.1, ?_⟩
    intro us hus
    cases hus
    exact hS2.2.2.1 huvT
  · rw [if_neg huvT] at h
    obtain rfl := Except.ok.inj h
    refine ⟨hS2.1, hS2.2.1, ?_⟩
    intro us hus
    exact Option.noConfusion hus

/-- Witness for C3 on the canonical two-triangle square: one strip of
four entries, normal sequence of the same length, no uv sequence. -/
theorem C3_parallel_lengths_witness :
    Strippify squareIxs none false false false 100 =
      .ok ⟨[[1, 0, 2, 3]], [[1, 0, 2, 3]], none⟩ ∧
    (lensEq [[1, 0, 2, 3]] [[1, 0, 2, 3]] ∧
     (∀ st ∈ ([[1, 0, 2, 3]] : List (List Nat)), 3 ≤ st.length) ∧
     (∀ us, (none : Option (List (List Nat))) = some us →
       lensEq [[1, 0, 2, 3]] us)) :=
  ⟨rfl, C3_parallel_lengths squareIxs none false 100
    ⟨[[1, 0, 2, 3]], [[1, 0, 2, 3]], none⟩ rfl⟩

/-! ### C8: alignment of chunk and buffer starts -/

/-- A successful `write_NGTL` ends 32-byte aligned. -/
theorem write_NGTL_pos (f : WFile) (names : List (List Nat)) (offs : List Nat)
    (gno : GNOTable) (p : WFile × GNOTable)
    (h : write_NGTL f names offs gno = .ok p) : p.1.pos % 32 = 0 := by
  rw [write_NGTL] at h
  obtain ⟨a, ha, h⟩ := bind_ok_elim h
  obtain ⟨b, hb, h⟩ := bind_ok_elim h
  obtain ⟨c, hc, h⟩ := bind_ok_elim h
  obtain rfl := Except.ok.inj h
  exact align32_pos _

/-- A successful texture-list branch leaves the position 32-byte aligned
when the output file starts at position 0. -/
theorem ngtlBranch_pos (inp : GnoInput) (output : WFile) (gno : GNOTable)
    (p : WFile × GNOTable) (h0 : output.pos = 0)
    (h : ngtlBranch inp output gno = .ok p) : p.1.pos % 32 = 0 := by
  rw [ngtlBranch] at h
  rcases ite_ok_elim h with ⟨-, h⟩ | ⟨-, h⟩
  · exact write_NGTL_pos _ _ _ _ _ h
  · obtain rfl := Except.ok.inj h
    show output.pos % 32 = 0
    rw [h0]

/-- A successful `write_materials_2` ends 4-byte aligned. -/
theorem write_materials_2_pos (f32 : ℚ → List Nat) (f : WFile)
    (mats : List BMaterial) (gno : GNOTable) (r : WFile × GNOTable × Nat)
    (h : write_materials_2 f32 f mats gno = .ok r) : r.1.pos % 4 = 0 := by
  rw [write_materials_2] at h
  obtain ⟨a, ha, h⟩ := bind_ok_elim h
  obtain rfl := Except.ok.inj h
  exact align4_pos _

/-- A successful `write_vertex_weights` ends 4-byte aligned. -/
theorem write_vertex_weights_pos (f : WFile) (weights : List ℚ)
    (bones : List (List Int)) (g : WFile)
    (h : write_vertex_weights f weights bones = .ok g) : g.pos % 4 = 0 := by
  rw [write_vertex_weights] at h
  obtain ⟨a, ha, h⟩ := bind_ok_elim h
  obtain rfl := Except.ok.inj h
  exact align4_pos _

/-- `set1Buffers` records 4-byte-aligned buffer starts and ends 4-byte
aligned, provided it starts 4-byte aligned. -/
theorem set1Buffers_pos (f32 : ℚ → List Nat) (f : WFile) (ms : List BMesh)
    (r : WFile × BufOffsets × List (List Nat)) (hf : f.pos % 4 = 0)
    (h : set1Buffers f32 f ms = .ok r) :
    (r.2.1.vOff % 4 = 0 ∧ r.2.1.nOff % 4 = 0 ∧ r.2.1.uOff % 4 = 0) ∧
    r.1.pos % 4 = 0 := by
  rw [set1Buffers] at h
  obtain ⟨a, ha, h⟩ := bind_ok_elim h
  obtain ⟨b, hb, h⟩ := bind_ok_elim h
  obtain rfl := Except.ok.inj h
  exact ⟨⟨hf, align4_pos _, align4_pos _⟩, align4_pos _⟩

/-- `set2Buffers` records 4-byte-aligned buffer starts and ends 4-byte
aligned, provided it starts 4-byte aligned. -/
theorem set2Buffers_pos (f32 : ℚ → List Nat) (f : WFile) (ms : List BMesh)
    (r : WFile × BufOffsets) (hf : f.pos % 4 = 0)
    (h : set2Buffers f32 f ms = .ok r) :
    (r.2.vOff % 4 = 0 ∧ r.2.nOff % 4 = 0 ∧ r.2.uOff % 4 = 0) ∧
    r.1.pos % 4 = 0 := by
  rw [set2Buffers] at h
  obtain ⟨a, ha, h⟩ := bind_ok_elim h
  obtain rfl := Except.ok.inj h
  exact ⟨⟨hf, align4_pos _, Nat.zero_mod 4⟩, align4_pos _⟩

/-- `set3Buffers` records 4-byte-aligned buffer starts and ends 4-byte
aligned, provided it starts 4-byte aligned. -/
theorem set3Buffers_pos (f32 : ℚ → List Nat) (f : WFile) (ms : List BMesh)
    (weights : List ℚ) (bones : List (List Int))
    (r : WFile × BufOffsets × List (List Nat)) (hf : f.pos % 4 = 0)
    (h : set3Buffers f32 f ms weights bones = .ok r) :
    (r.2.1.vOff % 4 = 0 ∧ r.2.1.nOff % 4 = 0 ∧ r.2.1.uOff % 4 = 0) ∧
    r.1.pos % 4 = 0 := by
  rw [set3Buffers] at h
  obtain ⟨a, ha, h⟩ := bind_ok_elim h
  obtain ⟨g, hg, h⟩ := bind_ok_elim h
  obtain rfl := Except.ok.inj h
  exact ⟨(set1Buffers_pos f32 f ms a hf ha).1,
    write_vertex_weights_pos _ weights bones g hg⟩

/-- The conditional set-1 buffer block: recorded starts and the final
position are 4-byte aligned, provided entry is 4-byte aligned. -/
theorem bufBranch1_pos (f32 : ℚ → List Nat) (f : WFile) (ms : List BMesh)
    (r : WFile × Option BufOffsets × List (List Nat)) (hf : f.pos % 4 = 0)
    (h : bufBranch1 f32 f ms = .ok r) :
    (∀ b, r.2.1 = some b → b.vOff % 4 = 0 ∧ b.nOff % 4 = 0 ∧ b.uOff % 4 = 0) ∧
    r.1.pos % 4 = 0 := by
  rw [bufBranch1] at h
  rcases ite_ok_elim h with ⟨-, h⟩ | ⟨-, h⟩
  · obtain ⟨a, ha, h⟩ := bind_ok_elim h
    obtain rfl := Except.ok.inj h
    have hs := set1Buffers_pos f32 f ms a hf ha
    exact ⟨fun b hb => by obtain rfl := Option.some.inj hb; exact hs.1, hs.2⟩
  · obtain rfl := Except.ok.inj h
    exact ⟨fun b hb => Option.noConfusion hb, hf⟩

/-- The conditional set-2 buffer block: recorded starts and the final
position are 4-byte aligned, provided entry is 4-byte aligned. -/
theorem bufBranch2_pos (f32 : ℚ → List Nat) (f : WFile) (ms : List BMesh)
    (r : WFile × Option BufOffsets) (hf : f.pos % 4 = 0)
    (h : bufBranch2 f32 f ms = .ok r) :
    (∀ b, r.2 = some b → b.vOff % 4 = 0 ∧ b.nOff % 4 = 0 ∧ b.uOff % 4 = 0) ∧
    r.1.pos % 4 = 0 := by
  rw [bufBranch2] at h
  rcases ite_ok_elim h with ⟨-, h⟩ | ⟨-, h⟩
  · obtain ⟨a, ha, h⟩ := bind_ok_elim h
    obtain rfl := Except.ok.inj h
    have hs := set2Buffers_pos f32 f ms a hf ha
    exact ⟨fun b hb => by obtain rfl := Option.some.inj hb; exact hs.1, hs.2⟩
  · obtain rfl := Except.ok.inj h
    exact ⟨fun b hb => Option.noConfusion hb, hf⟩

/-- The conditional set-3 buffer block: recorded starts and the final
position are 4-byte aligned, provided entry is 4-byte aligned. -/
theorem bufBranch3_pos (f32 : ℚ → List Nat) (f : WFile) (ms : List BMesh)
    (weights : List ℚ) (bones : List (List Int))
    (r : WFile × Option BufOffsets × List (List Nat)) (hf : f.pos % 4 = 0)
    (h : bufBranch3 f32 f ms weights bones = .ok r) :
    (∀ b, r.2.1 = some b → b.vOff % 4 = 0 ∧ b.nOff % 4 = 0 ∧ b.uOff % 4 = 0) ∧
    r.1.pos % 4 = 0 := by
  rw [bufBranch3] at h
  rcases ite_ok_elim h with ⟨-, h⟩ | ⟨-, h⟩
  · obtain ⟨a, ha, h⟩ := bind_ok_elim h
    obtain rfl := Except.ok.inj h
    have hs := set3Buffers_pos f32 f ms weights bones a hf ha
    exact ⟨fun b hb => by obtain rfl := Option.some.inj hb; exact hs.1, hs.2⟩
  · obtain rfl := Except.ok.inj h
    exact ⟨fun b hb => Option.noConfusion hb, hf⟩

/-- Membership in the recorded starts of a three-buffer block. -/
theorem mem_bufStarts3 {x : Nat} : ∀ (o : Option BufOffsets),
    x ∈ bufStarts3 o → ∃ b, o = some b ∧
      (x = b.vOff ∨ x = b.nOff ∨ x = b.uOff)
  | some b, hx => ⟨b, rfl, by simpa [bufStarts3] using hx⟩
  | none, hx => absurd hx (by simp [bufStarts3])

/-- Membership in the recorded starts of a two-buffer block. -/
theorem mem_bufStarts2 {x : Nat} : ∀ (o : Option BufOffsets),
    x ∈ bufStarts2 o → ∃ b, o = some b ∧ (x = b.vOff ∨ x = b.nOff)
  | some b, hx => ⟨b, rfl, by simpa [bufStarts2] using hx⟩
  | none, hx => absurd hx (by simp [bufStarts2])

/-- C8.  `write_32bit_aligned` always leaves the position a multiple of
32 and `write_8bit_aligned` a multiple of 4; both only ever append zero
bytes; and in any successful `write_new_gno_file_2` run on a fresh output
file every recorded chunk start is 32-byte aligned and every recorded raw
vertex/normal/uv buffer start is 4-byte aligned. -/
theorem C8_alignment (f32 : ℚ → List Nat) (inp : GnoInput) (output : WFile)
    (out : WFile × GNOTable × GnoResult × GnoTrace) (h0 : output.pos = 0)
    (h : write_new_gno_file_2 f32 inp output = .ok out) :
    (∀ g : WFile, g.write_32bit_aligned.pos % 32 = 0) ∧
    (∀ g : WFile, g.write_8bit_aligned.pos % 4 = 0) ∧
    (∀ g : WFile, g.pos = g.data.length →
      ∃ k, g.write_32bit_aligned.data = g.data ++ List.replicate k 0 ∧
        g.write_32bit_aligned.pos = g.write_32bit_aligned.data.length) ∧
    (∀ g : WFile, g.pos = g.data.length →
      ∃ k, g.write_8bit_aligned.data = g.data ++ List.replicate k 0 ∧
        g.write_8bit_aligned.pos = g.write_8bit_aligned.data.length) ∧
    (∀ c ∈ out.2.2.2.chunkStarts, c % 32 = 0) ∧
    (∀ v ∈ out.2.2.2.bufferStarts, v % 4 = 0) := by
  rw [write_new_gno_file_2] at h
  obtain ⟨p1, hng, h⟩ := bind_ok_elim h
  obtain ⟨f1, gno1⟩ := p1
  obtain ⟨p2, hwm, h⟩ := bind_ok_elim h
  obtain ⟨f2, p2'⟩ := p2
  obtain ⟨gno2, mso⟩ := p2'
  obtain ⟨p3, hbf1, h⟩ := bind_ok_elim h
  obtain ⟨f3, p3'⟩ := p3
  obtain ⟨b1v, uv1⟩ := p3'
  obtain ⟨p4, hbf2, h⟩ := bind_ok_elim h
  obtain ⟨f4, b2v⟩ := p4
  obtain ⟨p5, hbf3, h⟩ := bind_ok_elim h
  obtain ⟨f5, p5'⟩ := p5
  obtain ⟨b3v, uv3⟩ := p5'
  obtain ⟨p6, hi1, h⟩ := bind_ok_elim h
  obtain ⟨f6, p6'⟩ := p6
  obtain ⟨gno6, i1v⟩ := p6'
  obtain ⟨p7, hi2, h⟩ := bind_ok_elim h
  obtain ⟨f7, p7'⟩ := p7
  obtain ⟨gno7, i2v⟩ := p7'
  obtain ⟨p8, hi3, h⟩ := bind_ok_elim h
  obtain ⟨f8, p8'⟩ := p8
  obtain ⟨gno8, i3v⟩ := p8'
  obtain ⟨p9, hdesc, h⟩ := bind_ok_elim h
  obtain ⟨f9, gno9⟩ := p9
  obtain ⟨p10, hfc1, h⟩ := bind_ok_elim h
  obtain ⟨f10, fiA⟩ := p10
  obtain ⟨p11, hfc2, h⟩ := bind_ok_elim h
  obtain ⟨f11, fiB⟩ := p11
  obtain ⟨p12, hfc3, h⟩ := bind_ok_elim h
  obtain ⟨f12, fiC⟩ := p12
  obtain ⟨p13, hfs, h⟩ := bind_ok_elim h
  obtain ⟨f13, p13'⟩ := p13
  obtain ⟨gno13, fso⟩ := p13'
  obtain ⟨p14, hfio, h⟩ := bind_ok_elim h
  obtain ⟨f14, gno14⟩ := p14
  obtain ⟨p15, hms1, h⟩ := bind_ok_elim h
  obtain ⟨f15, p15'⟩ := p15
  obtain ⟨msiA, p15''⟩ := p15'
  obtain ⟨fidxA, vidxA⟩ := p15''
  obtain ⟨p16, hms2, h⟩ := bind_ok_elim h
  obtain ⟨f16, p16'⟩ := p16
  obtain ⟨msiB, p16''⟩ := p16'
  obtain ⟨fidxB, vidxB⟩ := p16''
  obtain ⟨p17, hms3, h⟩ := bind_ok_elim h
  obtain ⟨f17, p17'⟩ := p17
  obtain ⟨msiC, p17''⟩ := p17'
  obtain ⟨fidxC, vidxC⟩ := p17''
  obtain ⟨p18, hmsw, h⟩ := bind_ok_elim h
  obtain ⟨f18, gno18⟩ := p18
  obtain ⟨f19, h19, h⟩ := bind_ok_elim h
  obtain ⟨p20, h20, h⟩ := bind_ok_elim h
  obtain ⟨f20, gno20⟩ := p20
  obtain ⟨f21, h21, h⟩ := bind_ok_elim h
  obtain ⟨p22, h22, h⟩ := bind_ok_elim h
  obtain ⟨f22, gno22⟩ := p22
  obtain ⟨f23, h23, h⟩ := bind_ok_elim h
  obtain ⟨p24, h24, h⟩ := bind_ok_elim h
  obtain ⟨f24, gno24⟩ := p24
  obtain ⟨f25, h25, h⟩ := bind_ok_elim h
  obtain ⟨f26, h26, h⟩ := bind_ok_elim h
  obtain ⟨p27, h27, h⟩ := bind_ok_elim h
  obtain ⟨f27, gno27⟩ := p27
  obtain ⟨f28, h28, h⟩ := bind_ok_elim h
  obtain ⟨f29, h29, h⟩ := bind_ok_elim h
  obtain ⟨p30, h30, h⟩ := bind_ok_elim h
  obtain ⟨f30, gno30⟩ := p30
  obtain ⟨f31, h31, h⟩ := bind_ok_elim h
  obtain ⟨fno, h32, h⟩ := bind_ok_elim h
  obtain rfl := Except.ok.inj h
  refine ⟨align32_pos, align4_pos, align32_append, align4_append, ?_, ?_⟩
  · intro c hc
    simp only [List.mem_append, List.mem_cons, List.not_mem_nil, or_false] at hc
    rcases hc with hc | rfl | rfl | rfl | rfl
    · by_cases hT : inp.includeTextureList = true
      · rw [if_pos hT] at hc
        simp only [List.mem_singleton] at hc
        subst hc
        rw [h0]
      · rw [if_neg hT] at hc
        exact absurd hc (List.not_mem_nil c)
    · exact ngtlBranch_pos inp output _ _ h0 hng
    · exact align32_pos _
    · exact align32_pos _
    · exact align32_pos _
  · intro v hv
    simp only [List.mem_append] at hv
    have e2 : f2.pos % 4 = 0 :=
      write_materials_2_pos f32 _ inp.materials _ _ hwm
    have r1 := bufBranch1_pos f32 f2 inp.set1 _ e2 hbf1
    have r2 := bufBranch2_pos f32 f3 inp.set2 _ r1.2 hbf2
    have r3 := bufBranch3_pos f32 f4 inp.set3 inp.weights inp.bones _ r2.2 hbf3
    rcases hv with (hv | hv) | hv
    · obtain ⟨b, hb, hv⟩ := mem_bufStarts3 _ hv
      have hbb := r1.1 b hb
      rcases hv with rfl | rfl | rfl
      · exact hbb.1
      · exact hbb.2.1
      · exact hbb.2.2
    · obtain ⟨b, hb, hv⟩ := mem_bufStarts2 _ hv
      have hbb := r2.1 b hb
      rcases hv with rfl | rfl
      · exact hbb.1
      · exact hbb.2.1
    · obtain ⟨b, hb, hv⟩ := mem_bufStarts3 _ hv
      have hbb := r3.1 b hb
      rcases hv with rfl | rfl | rfl
      · exact hbb.1
      · exact hbb.2.1
      · exact hbb.2.2

/-- Witness for C8: the empty export runs successfully from a fresh file
and its trace satisfies the alignment properties. -/
theorem C8_alignment_witness :
    write_new_gno_file_2 f32c emptyGnoInput ⟨[], 0, true⟩ = .ok emptyGnoOut ∧
    ((∀ g : WFile, g.write_32bit_aligned.pos % 32 = 0) ∧
     (∀ g : WFile, g.write_8bit_aligned.pos % 4 = 0) ∧
     (∀ g : WFile, g.pos = g.data.length →
       ∃ k, g.write_32bit_aligned.data = g.data ++ List.replicate k 0 ∧
         g.write_32bit_aligned.pos = g.write_32bit_aligned.data.length) ∧
     (∀ g : WFile, g.pos = g.data.length →
       ∃ k, g.write_8bit_aligned.data = g.data ++ List.replicate k 0 ∧
         g.write_8bit_aligned.pos = g.write_8bit_aligned.data.length) ∧
     (∀ c ∈ emptyGnoOut.2.2.2.chunkStarts, c % 32 = 0) ∧
     (∀ v ∈ emptyGnoOut.2.2.2.bufferStarts, v % 4 = 0)) :=
  ⟨rfl, C8_alignment f32c emptyGnoInput ⟨[], 0, true⟩ emptyGnoOut rfl rfl⟩

end Gno
